import Mathlib

/-!
# Verification of the blotato-spam-filter content risk-scoring core

Shallow embedding of the repository's scoring pipeline:
text is modelled as `List Char`, JavaScript numbers as `ℚ`,
timestamps and durations (milliseconds) as `ℕ`, thrown exceptions as
`Except`, and the `Map`-backed result cache as an insertion-ordered
association list.  Every definition is translated from the TypeScript
source; the SHA-256 digest used for content fingerprints comes from
node's `crypto` package and is therefore kept as an explicit function
parameter `digest` (all theorems hold for every digest function).
-/

/-- Text is modelled as a list of Unicode scalar values, mirroring a
JavaScript string (the sources never split surrogate pairs). -/
abbrev JsText := List Char

/-- Whitespace as matched by JavaScript's `\s`, `trim` and `split(/\s+/)`:
ASCII whitespace plus the Unicode space separators used by V8. -/
def jsWhitespace (c : Char) : Bool :=
  c = ' ' ∨ c = '\t' ∨ c = '\n' ∨ c = '\r' ∨ c.toNat = 0x0B ∨ c.toNat = 0x0C ∨
  c.toNat = 0x00A0 ∨ c.toNat = 0x1680 ∨
  (0x2000 ≤ c.toNat ∧ c.toNat ≤ 0x200A) ∨
  c.toNat = 0x2028 ∨ c.toNat = 0x2029 ∨ c.toNat = 0x202F ∨
  c.toNat = 0x205F ∨ c.toNat = 0x3000 ∨ c.toNat = 0xFEFF

/-- `String.prototype.trim`. -/
def jsTrim (l : JsText) : JsText :=
  ((l.dropWhile jsWhitespace).reverse.dropWhile jsWhitespace).reverse

/-- `String.prototype.toLowerCase`, restricted to the simple one-to-one
case mappings (exact on the ASCII and Cyrillic text handled here). -/
def jsToLower (l : JsText) : JsText := l.map Char.toLower

/-- Word characters as matched by JavaScript's `\w`: `[A-Za-z0-9_]`. -/
def isWordChar (c : Char) : Bool :=
  ('a' ≤ c ∧ c ≤ 'z') ∨ ('A' ≤ c ∧ c ≤ 'Z') ∨ ('0' ≤ c ∧ c ≤ '9') ∨ c = '_'

/-- ASCII letters `[a-zA-Z]`. -/
def isAsciiLetter (c : Char) : Bool :=
  ('a' ≤ c ∧ c ≤ 'z') ∨ ('A' ≤ c ∧ c ≤ 'Z')

/-- ASCII digits `[0-9]`. -/
def isAsciiDigit (c : Char) : Bool := '0' ≤ c ∧ c ≤ '9'

/-! ## Data model (src/types/detection.ts) -/

/-- `DetectionDecision` from src/types/detection.ts. -/
inductive DetectionDecision where
  | allow
  | flag
  | reject
  | under_review
deriving DecidableEq, Repr

/-- `SpamIndicatorType` from src/types/detection.ts. -/
inductive SpamIndicatorType where
  | profanity
  | repetitive_content
  | promotional
  | suspicious_links
  | caps_abuse
  | fake_engagement
  | character_patterns
  | word_patterns
  | sentence_structure
deriving DecidableEq, Repr

/-- `SeverityLevel` from src/types/detection.ts. -/
inductive SeverityLevel where
  | low
  | medium
  | high
deriving DecidableEq, Repr

/-- `SpamIndicator` from src/types/detection.ts. -/
structure SpamIndicator where
  indType : SpamIndicatorType
  severity : SeverityLevel
  confidence : ℚ
  evidence : List String
  weight : ℚ
deriving DecidableEq, Repr

/-- `DetectionResult` from src/types/detection.ts. -/
structure DetectionResult where
  decision : DetectionDecision
  overallScore : ℚ
  confidence : ℚ
  indicators : List SpamIndicator
  processingTime : ℚ
  contentHash : String
deriving DecidableEq, Repr

/-- A detection rule (`DetectionRule` from src/types/detection.ts): its
`execute` may return an indicator, return nothing, or throw (modelled by
`Except`, with the thrown error as a message string). -/
structure DetectionRule where
  name : String
  enabled : Bool
  execute : JsText → Except String (Option SpamIndicator)

/-! ## Configuration (src/config/detection.ts) -/

/-- `DETECTION_THRESHOLDS` from src/config/detection.ts. -/
structure DetectionThresholds where
  allow : ℚ
  flag : ℚ
  underReview : ℚ
  reject : ℚ

/-- The fixed threshold values from src/config/detection.ts. -/
def DETECTION_THRESHOLDS : DetectionThresholds :=
  { allow := 0.2, flag := 0.5, underReview := 0.7, reject := 0.7 }

/-- `createContentHash` from src/utils/hash.ts: the SHA-256/hex/first-16
digest (node `crypto`, kept abstract as `digest`) of the trimmed,
lower-cased raw text. -/
def createContentHash (digest : JsText → String) (content : JsText) : String :=
  digest (jsToLower (jsTrim content))

/-! ## Aggregation / decision engine (src/services/detection-engine.ts) -/

namespace SpamDetectionEngine

/-- `getDecisionFromScore`: fixed thresholds evaluated low to high. -/
def getDecisionFromScore (score : ℚ) : DetectionDecision :=
  if score ≤ DETECTION_THRESHOLDS.allow then .allow
  else if score ≤ DETECTION_THRESHOLDS.flag then .flag
  else if score ≤ DETECTION_THRESHOLDS.underReview then .under_review
  else .reject

/-- `calculateConfidence`: confidence in the decision derived from the
indicator count, the extremity of the score and the mean indicator
confidence. -/
def calculateConfidence (indicators : List SpamIndicator) (overallScore : ℚ) : ℚ :=
  if indicators.length = 0 then 1
  else
    let indicatorFactor : ℚ := min ((indicators.length : ℚ) / 3) 1
    let scoreFactor : ℚ := if overallScore < 0.2 ∨ overallScore > 0.8 then 1 else 0.7
    let avgIndicatorConfidence : ℚ :=
      (indicators.map (·.confidence)).sum / (indicators.length : ℚ)
    min (indicatorFactor * scoreFactor * avgIndicatorConfidence) 1

/-- `calculateFinalDecision`: weighted-average score over the emitted
indicators, then confidence and thresholded decision. -/
def calculateFinalDecision (indicators : List SpamIndicator) (contentHash : String)
    (processingTime : ℚ) : DetectionResult :=
  let totalScore : ℚ := (indicators.map (fun i => i.confidence * i.weight)).sum
  let totalWeight : ℚ := (indicators.map (·.weight)).sum
  let overallScore : ℚ := if totalWeight > 0 then totalScore / totalWeight else 0
  { decision := getDecisionFromScore overallScore
    overallScore := overallScore
    confidence := calculateConfidence indicators overallScore
    indicators := indicators
    processingTime := processingTime
    contentHash := contentHash }

/-- `createEmptyResult`: the verdict for empty/invalid content inside the
engine. -/
def createEmptyResult (contentHash : String) (processingTime : ℚ) : DetectionResult :=
  { decision := .allow, overallScore := 0, confidence := 1, indicators := []
    processingTime := processingTime, contentHash := contentHash }

/-- `createErrorResult`: safe fallback verdict on an engine failure. -/
def createErrorResult (contentHash : String) (processingTime : ℚ) : DetectionResult :=
  { decision := .under_review, overallScore := 0.5, confidence := 0.1, indicators := []
    processingTime := processingTime, contentHash := contentHash }

/-- `executeRuleSafely`: a throwing rule is caught and contributes no
indicator. -/
def executeRuleSafely (rule : DetectionRule) (content : JsText) : Option SpamIndicator :=
  match rule.execute content with
  | .ok r => r
  | .error _ => none

/-- `analyzeContent` on the engine: validate, run the enabled rules (each
behind `executeRuleSafely`), keep the non-null indicators and aggregate.
The elapsed wall time reported by `PerformanceTimer` is the explicit
parameter `processingTime`. -/
def analyzeContent (rules : List DetectionRule) (digest : JsText → String)
    (content : JsText) (processingTime : ℚ) : DetectionResult :=
  let contentHash := createContentHash digest content
  if (jsTrim content).isEmpty then createEmptyResult contentHash processingTime
  else
    let indicators :=
      ((rules.filter (·.enabled)).map (fun r => executeRuleSafely r content)).filterMap id
    calculateFinalDecision indicators contentHash processingTime

end SpamDetectionEngine

/-! ## Result cache (src/cache/memory-cache.ts, src/types/cache.ts) -/

/-- `CacheEntry` from src/types/cache.ts.  `ttl = 0` models the absent or
falsy time-to-live (both behave identically at every read site, which
guards with `entry.ttl &&`). -/
structure CacheEntry where
  value : DetectionResult
  timestamp : ℕ
  hits : ℕ
  ttl : ℕ
deriving DecidableEq, Repr

/-- The `MemoryCache` state: the backing `Map` is an insertion-ordered
association list (JavaScript `Map` iterates in insertion order and keeps
an overwritten key at its original position). -/
structure MemoryCache where
  cache : List (String × CacheEntry)
  hits : ℕ
  misses : ℕ
  maxEntries : ℕ
  defaultTtl : ℕ
deriving DecidableEq, Repr

namespace MemoryCache

/-- The `MemoryCache` constructor (defaults: 10000 entries, one hour). -/
def init (maxEntries defaultTtl : ℕ) : MemoryCache :=
  { cache := [], hits := 0, misses := 0, maxEntries := maxEntries, defaultTtl := defaultTtl }

/-- `Map.prototype.delete`. -/
def eraseKey (k : String) (l : List (String × CacheEntry)) : List (String × CacheEntry) :=
  l.filter (fun p => p.1 ≠ k)

/-- `Map.prototype.set`: overwrite in place, or append a new key. -/
def setKey (k : String) (e : CacheEntry) :
    List (String × CacheEntry) → List (String × CacheEntry)
  | [] => [(k, e)]
  | p :: rest => if p.1 = k then (k, e) :: rest else p :: setKey k e rest

/-- The expiry test `entry.ttl && Date.now() > entry.timestamp + entry.ttl`. -/
def expiredAt (e : CacheEntry) (now : ℕ) : Bool :=
  e.ttl ≠ 0 ∧ now > e.timestamp + e.ttl

/-- `MemoryCache.get`: a miss bumps `misses`; an expired entry is deleted
and counted as a miss; a live hit bumps both the global and the per-entry
hit counters. -/
def get (k : String) (now : ℕ) (c : MemoryCache) : Option DetectionResult × MemoryCache :=
  match List.lookup k c.cache with
  | none => (none, { c with misses := c.misses + 1 })
  | some e =>
    if expiredAt e now then
      (none, { c with cache := eraseKey k c.cache, misses := c.misses + 1 })
    else
      (some e.value,
       { c with hits := c.hits + 1,
                cache := setKey k { e with hits := e.hits + 1 } c.cache })

/-- The eviction score `entry.hits / Math.max(ageHours, 0.1)` with
`ageHours = (now - entry.timestamp) / (1000 * 60 * 60)`. -/
def evictionScore (e : CacheEntry) (now : ℕ) : ℚ :=
  (e.hits : ℚ) / max (((now - e.timestamp : ℕ) : ℚ) / 3600000) (1 / 10)

/-- The scan of `evictLeastRecentlyUsed`: lowest score wins, a tie keeps
the earlier (first-encountered) entry; the `none` start models the
`lowestScore = Infinity` initialisation. -/
def evictFold (now : ℕ) (entries : List (String × CacheEntry)) : Option (String × ℚ) :=
  entries.foldl
    (fun best p =>
      let s := evictionScore p.2 now
      match best with
      | none => some (p.1, s)
      | some (bk, bs) => if s < bs then some (p.1, s) else some (bk, bs))
    none

/-- `evictLeastRecentlyUsed`.  The final `if (lruKey)` is a JavaScript
truthiness test, so a selected key equal to `""` is (vacuously) not
deleted. -/
def evictLeastRecentlyUsed (now : ℕ) (c : MemoryCache) : MemoryCache :=
  if c.cache.isEmpty then c
  else
    match evictFold now c.cache with
    | some (k, _) => if k = "" then c else { c with cache := eraseKey k c.cache }
    | none => c

/-- The stored time-to-live `ttl || this.defaultTtl`: an omitted or zero
(falsy) argument falls back to the default. -/
def jsOrTtl (ttl : Option ℕ) (dflt : ℕ) : ℕ :=
  match ttl with
  | some t => if t = 0 then dflt else t
  | none => dflt

/-- `MemoryCache.set`: evict once when at capacity, then insert the fresh
entry with `hits = 0` and the effective ttl. -/
def set (k : String) (v : DetectionResult) (ttl : Option ℕ) (now : ℕ)
    (c : MemoryCache) : MemoryCache :=
  let c1 := if c.cache.length ≥ c.maxEntries then evictLeastRecentlyUsed now c else c
  { c1 with
    cache := setKey k { value := v, timestamp := now, hits := 0,
                        ttl := jsOrTtl ttl c.defaultTtl } c1.cache }

/-- `MemoryCache.has`: like `get` but without counter updates (an expired
entry is still deleted). -/
def hasKey (k : String) (now : ℕ) (c : MemoryCache) : Bool × MemoryCache :=
  match List.lookup k c.cache with
  | none => (false, c)
  | some e =>
    if expiredAt e now then (false, { c with cache := eraseKey k c.cache })
    else (true, c)

/-- `MemoryCache.clear`. -/
def clear (c : MemoryCache) : MemoryCache :=
  { c with cache := [], hits := 0, misses := 0 }

/-- `MemoryCache.cleanup`: delete every expired entry, return the number
removed. -/
def cleanup (now : ℕ) (c : MemoryCache) : MemoryCache × ℕ :=
  ({ c with cache := c.cache.filter (fun p => ¬ expiredAt p.2 now) },
   (c.cache.filter (fun p => expiredAt p.2 now)).length)

/-- `MemoryCache.getSize`. -/
def getSize (c : MemoryCache) : ℕ := c.cache.length

end MemoryCache

/-! ## Plain detection service (src/services/spam-detection-service.ts) -/

/-- The input-validation error thrown by `analyzeContent`
(`new Error('Content cannot be empty')`). -/
inductive InputError where
  | emptyContent
deriving DecidableEq, Repr

namespace SpamDetectionService

/-- `SpamDetectionService.analyzeContent`: throw on empty/blank input
(the throw is not caught inside the service, so it escapes to the
caller); otherwise serve from cache — refreshing only the reported
processing time — or run the engine and store its verdict. -/
def analyzeContent (rules : List DetectionRule) (digest : JsText → String)
    (content : JsText) (now : ℕ) (processingTime : ℚ) (cache : MemoryCache) :
    Except InputError (DetectionResult × MemoryCache) :=
  if (jsTrim content).isEmpty then .error .emptyContent
  else
    let contentHash := createContentHash digest content
    match MemoryCache.get contentHash now cache with
    | (some cached, cache1) => .ok ({ cached with processingTime := 0.1 }, cache1)
    | (none, cache1) =>
      let result := SpamDetectionEngine.analyzeContent rules digest content processingTime
      .ok (result, MemoryCache.set contentHash result none now cache1)

end SpamDetectionService

/-! ## Generic string-replacement scanners

`replaceAllFuel` mirrors `String.prototype.replace` with a global literal
pattern (left-to-right, non-overlapping, no rescanning of the output);
the fuel argument is instantiated with the input length, which bounds the
number of scanning steps since every step consumes at least one input
character. -/

/-- Replace every non-overlapping occurrence of `pat` (fuel-bounded). -/
def replaceAllFuel (pat rep : JsText) : ℕ → JsText → JsText
  | _, [] => []
  | 0, l => l
  | fuel + 1, c :: rest =>
    if pat ≠ [] ∧ pat.isPrefixOf (c :: rest) then
      rep ++ replaceAllFuel pat rep fuel (List.drop pat.length (c :: rest))
    else c :: replaceAllFuel pat rep fuel rest

/-- `text.replace(pat, rep)` with a global regex of the literal `pat`. -/
def replaceAll (pat rep l : JsText) : JsText := replaceAllFuel pat rep l.length l

/-- `text.replace(pat, rep)` with a plain string `pat`: first occurrence
only. -/
def replaceFirst (pat rep : JsText) : JsText → JsText
  | [] => []
  | c :: rest =>
    if pat ≠ [] ∧ pat.isPrefixOf (c :: rest) then rep ++ List.drop pat.length (c :: rest)
    else c :: replaceFirst pat rep rest

/-! ## Content preprocessor
(src/services/optimizations/content-preprocessor.ts) -/

namespace ContentPreprocessor

/-- `fixEncoding`: the twelve sequential global replacements (HTML
entities, then typographic Unicode punctuation). -/
def fixEncoding (l : JsText) : JsText :=
  let s01 := replaceAll "&lt;".toList "<".toList l
  let s02 := replaceAll "&gt;".toList ">".toList s01
  let s03 := replaceAll "&amp;".toList "&".toList s02
  let s04 := replaceAll "&quot;".toList "\"".toList s03
  let s05 := replaceAll "&#39;".toList "'".toList s04
  let s06 := replaceAll " ".toList " ".toList s05
  let s07 := replaceAll "’".toList "'".toList s06
  let s08 := replaceAll "“".toList "\"".toList s07
  let s09 := replaceAll "”".toList "\"".toList s08
  let s10 := replaceAll "–".toList "-".toList s09
  let s11 := replaceAll "—".toList "--".toList s10
  replaceAll "…".toList "...".toList s11

/-- Unicode NFC canonical composition (`content.normalize('NFC')`).
NFC is the identity on text that is already in composed form — in
particular on all ASCII text, which covers every concrete input examined
here — and the surrounding pipeline is insensitive to the choice of
canonical representative. -/
def nfc (l : JsText) : JsText := l

/-- The zero-width characters `[​‌‍⁠﻿]`. -/
def isZeroWidth (c : Char) : Bool :=
  c.toNat = 0x200B ∨ c.toNat = 0x200C ∨ c.toNat = 0x200D ∨
  c.toNat = 0x2060 ∨ c.toNat = 0xFEFF

/-- `normalizeUnicode`: NFC, then strip zero-width characters and soft
hyphens. -/
def normalizeUnicode (l : JsText) : JsText :=
  (nfc l).filter (fun c => ¬ (isZeroWidth c ∨ c.toNat = 0x00AD))

/-- Uppercase ASCII `[A-Z]`. -/
def isUpperAscii (c : Char) : Bool := 'A' ≤ c ∧ c ≤ 'Z'

/-- Lowercase ASCII `[a-z]`. -/
def isLowerAscii (c : Char) : Bool := 'a' ≤ c ∧ c ≤ 'z'

/-- A `\b` boundary immediately before a word character: the previous
character (if any) is not a word character. -/
def atWordBoundary : Option Char → Bool
  | none => true
  | some c => ¬ isWordChar c

/-- Try a position test (receiving the previous character and the
remaining text) at every position of the text, like a regex `test`. -/
def scanPositions (test : Option Char → JsText → Bool) : Option Char → JsText → Bool
  | prev, [] => test prev []
  | prev, c :: rest => test prev (c :: rest) || scanPositions test (some c) rest

/-- Whether a regex-position test matches anywhere in the text. -/
def existsMatch (test : Option Char → JsText → Bool) (l : JsText) : Bool :=
  scanPositions test none l

/-- Pattern `/\b(f|F)r[3e]{2,}/` — "free" variations. -/
def suspFree (prev : Option Char) (t : JsText) : Bool :=
  atWordBoundary prev &&
  match t with
  | f :: r :: x :: y :: _ =>
    decide ((f = 'f' ∨ f = 'F') ∧ r = 'r' ∧ (x = '3' ∨ x = 'e') ∧ (y = '3' ∨ y = 'e'))
  | _ => false

/-- Pattern `/\b(m|M)[0o]n[3e]y/` — "money" variations. -/
def suspMoney (prev : Option Char) (t : JsText) : Bool :=
  atWordBoundary prev &&
  match t with
  | m :: o :: n :: e :: y :: _ =>
    decide ((m = 'm' ∨ m = 'M') ∧ (o = '0' ∨ o = 'o') ∧ n = 'n' ∧ (e = '3' ∨ e = 'e') ∧ y = 'y')
  | _ => false

/-- Pattern `/\b(w|W)[1i]n/` — "win" variations. -/
def suspWin (prev : Option Char) (t : JsText) : Bool :=
  atWordBoundary prev &&
  match t with
  | w :: i :: n :: _ => decide ((w = 'w' ∨ w = 'W') ∧ (i = '1' ∨ i = 'i') ∧ n = 'n')
  | _ => false

/-- Pattern `/\$\d+/` — money amounts. -/
def suspMoneyAmount (_prev : Option Char) (t : JsText) : Bool :=
  match t with
  | '$' :: d :: _ => isAsciiDigit d
  | _ => false

/-- Digit-group helper for the phone-number pattern. -/
def allDigits (l : JsText) : Bool := l.all isAsciiDigit

/-- Body of `/\b\d{3,}-?\d{3,}-?\d{4,}\b/` at one position: some split
into three digit groups (of sizes ≥3, ≥3, ≥4) with optional single
dashes between them, ending at a word boundary. -/
def suspPhoneFrom (t : JsText) : Bool :=
  (List.range (t.length + 1)).any fun a =>
    3 ≤ a ∧ allDigits (t.take a) ∧
    ([true, false].any fun dash1 =>
      let t1 := t.drop a
      let t2 : Option JsText :=
        if dash1 then (match t1 with | '-' :: r => some r | _ => none) else some t1
      match t2 with
      | none => false
      | some t2 =>
        (List.range (t2.length + 1)).any fun b =>
          3 ≤ b ∧ allDigits (t2.take b) ∧
          ([true, false].any fun dash2 =>
            let t3 := t2.drop b
            let t4 : Option JsText :=
              if dash2 then (match t3 with | '-' :: r => some r | _ => none) else some t3
            match t4 with
            | none => false
            | some t4 =>
              (List.range (t4.length + 1)).any fun k =>
                decide (4 ≤ k) && allDigits (t4.take k) &&
                (match t4.drop k with
                 | [] => true
                 | ch :: _ => ! isWordChar ch)))

/-- Pattern `/\b\d{3,}-?\d{3,}-?\d{4,}\b/` — phone numbers. -/
def suspPhone (prev : Option Char) (t : JsText) : Bool :=
  atWordBoundary prev ∧ suspPhoneFrom t

/-- JavaScript line terminators (not matched by `.`). -/
def isJsNewline (c : Char) : Bool :=
  c = '\n' ∨ c = '\r' ∨ c.toNat = 0x2028 ∨ c.toNat = 0x2029

/-- After `[A-Z]{3,}`: can `.*[!]{2,}` complete, i.e. is there a `!!`
ahead with no line terminator before it? -/
def bangsReachable : JsText → Bool
  | '!' :: '!' :: _ => true
  | c :: rest => if isJsNewline c then false else bangsReachable rest
  | [] => false

/-- Pattern `/[A-Z]{3,}.*[!]{2,}/` — CAPS with exclamation. -/
def suspCapsBang (_prev : Option Char) (t : JsText) : Bool :=
  match t with
  | a :: b :: c :: rest => isUpperAscii a ∧ isUpperAscii b ∧ isUpperAscii c ∧ bangsReachable rest
  | _ => false

/-- `hasSuspiciousPatterns`: any of the six lexical patterns matches. -/
def hasSuspiciousPatterns (l : JsText) : Bool :=
  existsMatch suspFree l || existsMatch suspMoney l || existsMatch suspWin l ||
  existsMatch suspMoneyAmount l || existsMatch suspPhone l || existsMatch suspCapsBang l

/-- The leet-speak substitution table (the ten sequential global
single-character replacements commute with one another because no
replacement output is a later pattern, so one pass over the characters is
exact). -/
def leetSub (c : Char) : Char :=
  match c with
  | '0' => 'o' | '1' => 'i' | '3' => 'e' | '4' => 'a' | '5' => 's'
  | '7' => 't' | '8' => 'b' | '@' => 'a' | '$' => 's' | '!' => 'i'
  | _ => c

/-- Emit a pending whitespace run: runs of three or more collapse to a
single space (`/\s{3,}/g → ' '`), shorter runs are kept. -/
def flushWsRun (pending : JsText) : JsText :=
  if 3 ≤ pending.length then [' '] else pending.reverse

/-- Scanner for `/\s{3,}/g → ' '` (the pending accumulator holds the
current whitespace run, reversed). -/
def collapseWs3Aux : JsText → JsText → JsText
  | [], pending => flushWsRun pending
  | c :: rest, pending =>
    if jsWhitespace c then collapseWs3Aux rest (c :: pending)
    else flushWsRun pending ++ c :: collapseWs3Aux rest []

/-- `result.replace(/\s{3,}/g, ' ')`. -/
def collapseWs3 (l : JsText) : JsText := collapseWs3Aux l []

/-- Does an all-letter run contain `[A-Z][a-z]+[A-Z]` (state 1: seen an
uppercase; state 2: seen uppercase then lowercase)? -/
def hasUlUAux : JsText → ℕ → Bool
  | [], _ => false
  | c :: rest, st =>
    if isUpperAscii c then (if st = 2 then true else hasUlUAux rest 1)
    else if isLowerAscii c then hasUlUAux rest (if st = 0 then 0 else 2)
    else hasUlUAux rest 0

/-- Whether a run matches the inner part of
`\b[A-Za-z]*[A-Z][a-z]+[A-Z][A-Za-z]*\b`. -/
def hasUlU (l : JsText) : Bool := hasUlUAux l 0

/-- Emit one maximal word-character run of the mixed-case scanner: an
all-letter run containing the mixed-case pattern is folded to lowercase
(the `\b` anchors make the regex match exactly the maximal `\w`-runs that
consist of letters only). -/
def emitMixedRun (acc : JsText) : JsText :=
  let run := acc.reverse
  if run.all isAsciiLetter ∧ hasUlU run then run.map Char.toLower else run

/-- Scanner applying the mixed-case word folding. -/
def foldMixedAux : JsText → JsText → JsText
  | [], acc => emitMixedRun acc
  | c :: rest, acc =>
    if isWordChar c then foldMixedAux rest (c :: acc)
    else emitMixedRun acc ++ c :: foldMixedAux rest []

/-- `result.replace(/\b[A-Za-z]*[A-Z][a-z]+[A-Z][A-Za-z]*\b/g,
m => m.toLowerCase())`. -/
def foldMixedCaseWords (l : JsText) : JsText := foldMixedAux l []

/-- `handleObfuscation`: leet substitutions only in suspicious contexts,
collapse long whitespace runs, then fold intentionally mixed-case words
(again only if the intermediate text still looks suspicious). -/
def handleObfuscation (l : JsText) : JsText :=
  let r1 := if hasSuspiciousPatterns l then l.map leetSub else l
  let r2 := collapseWs3 r1
  if hasSuspiciousPatterns r2 then foldMixedCaseWords r2 else r2

end ContentPreprocessor

namespace ContentPreprocessor

/-- Case-insensitive literal match at the start of the text. -/
def ciStartsWith : JsText → JsText → Bool
  | [], _ => true
  | _ :: _, [] => false
  | p :: ps, c :: cs => (p.toLower = c.toLower : Bool) && ciStartsWith ps cs

/-- Is the character at offset `n` present and not whitespace (the
`[^\s]+` tail of the URL regex needs at least one character)? -/
def nonWsAfter (l : JsText) (n : ℕ) : Bool :=
  match l.drop n with
  | [] => false
  | c :: _ => ! jsWhitespace c

/-- Does `/https?:\/\/[^\s]+/i` match at this position? -/
def isUrlStart (l : JsText) : Bool :=
  (ciStartsWith "http://".toList l && nonWsAfter l 7) ||
  (ciStartsWith "https://".toList l && nonWsAfter l 8)

/-- Scanner collecting the matches of `/https?:\/\/[^\s]+/gi`: once a
match starts it greedily consumes every following non-whitespace
character (the accumulator holds the current match, reversed). -/
def urlScanAux : JsText → Option JsText → List JsText
  | [], none => []
  | [], some acc => [acc.reverse]
  | c :: rest, some acc =>
    if ! jsWhitespace c then urlScanAux rest (some (c :: acc))
    else acc.reverse :: urlScanAux rest none
  | c :: rest, none =>
    if isUrlStart (c :: rest) then urlScanAux rest (some [c])
    else urlScanAux rest none

/-- `content.match(/https?:\/\/[^\s]+/gi) || []`. -/
def urlMatches (l : JsText) : List JsText := urlScanAux l none

/-- Scanner for `/\s+/g → ' '`: every maximal whitespace run becomes one
space. -/
def collapseWsAux : JsText → Bool → JsText
  | [], _ => []
  | c :: rest, inWs =>
    if jsWhitespace c then
      (if inWs then collapseWsAux rest true else ' ' :: collapseWsAux rest true)
    else c :: collapseWsAux rest false

/-- `result.replace(/\s+/g, ' ')`. -/
def collapseWs (l : JsText) : JsText := collapseWsAux l false

/-- Repeated terminal punctuation `.`, `!`, `?`. -/
def isTermPunct (c : Char) : Bool := c = '.' ∨ c = '!' ∨ c = '?'

/-- Scanner for `/([.!?])\1{2,}/g → '$1$1$1'`: a run of three or more
copies of the same terminal punctuation character is capped at three
(the state tracks the current run's character and how many copies have
been seen). -/
def capPunctAux : JsText → Option (Char × ℕ) → JsText
  | [], _ => []
  | c :: rest, st =>
    if isTermPunct c then
      match st with
      | some (p, n) =>
        if c = p then
          (if n < 3 then c :: capPunctAux rest (some (p, n + 1))
           else capPunctAux rest (some (p, n + 1)))
        else c :: capPunctAux rest (some (c, 1))
      | none => c :: capPunctAux rest (some (c, 1))
    else c :: capPunctAux rest none

/-- `result.replace(/([.!?])\1{2,}/g, '$1$1$1')`. -/
def capRepeatedPunct (l : JsText) : JsText := capPunctAux l none

/-- The `__URL_i__` placeholder. -/
def urlPlaceholder (i : ℕ) : JsText := ("__URL_" ++ toString i ++ "__").toList

/-- `smartNormalization`: swap URLs for placeholders (first occurrence
each), trim, collapse whitespace, cap repeated terminal punctuation,
then restore the URLs. -/
def smartNormalization (l : JsText) : JsText :=
  let urls := urlMatches l
  let withPh := urls.enum.foldl (fun acc p => replaceFirst p.2 (urlPlaceholder p.1) acc) l
  let r := capRepeatedPunct (collapseWs (jsTrim withPh))
  urls.enum.foldl (fun acc p => replaceFirst (urlPlaceholder p.1) p.2 acc) r

/-- The emoji code-point ranges of the `hasEmojis` regex. -/
def isEmojiChar (c : Char) : Bool :=
  let n := c.toNat
  (0x1F600 ≤ n ∧ n ≤ 0x1F64F) ∨ (0x1F300 ≤ n ∧ n ≤ 0x1F5FF) ∨
  (0x1F680 ≤ n ∧ n ≤ 0x1F6FF) ∨ (0x1F700 ≤ n ∧ n ≤ 0x1F77F) ∨
  (0x1F780 ≤ n ∧ n ≤ 0x1F7FF) ∨ (0x1F800 ≤ n ∧ n ≤ 0x1F8FF) ∨
  (0x2600 ≤ n ∧ n ≤ 0x26FF) ∨ (0x2700 ≤ n ∧ n ≤ 0x27BF)

/-- `/#\w+/` test. -/
def hasHashtagsTest (l : JsText) : Bool :=
  l.tails.any fun t =>
    match t with
    | '#' :: c :: _ => isWordChar c
    | _ => false

/-- `/@\w+/` test. -/
def hasMentionsTest (l : JsText) : Bool :=
  l.tails.any fun t =>
    match t with
    | '@' :: c :: _ => isWordChar c
    | _ => false

/-- Number of maximal non-whitespace runs:
`normalized.trim().split(/\s+/).filter(w => w.length > 0).length`. -/
def wordCountAux : JsText → Bool → ℕ
  | [], _ => 0
  | c :: rest, inWord =>
    if jsWhitespace c then wordCountAux rest false
    else (if inWord then 0 else 1) + wordCountAux rest true

/-- The word count of the normalized text. -/
def wordCountOf (l : JsText) : ℕ := wordCountAux (jsTrim l) false

/-- Maximal `\w`-runs of the text (the fragments on which a
`\b(..|..)\b` alternation can match). -/
def wordRunsAux : JsText → JsText → List JsText
  | [], acc => if acc.isEmpty then [] else [acc.reverse]
  | c :: rest, acc =>
    if isWordChar c then wordRunsAux rest (c :: acc)
    else if acc.isEmpty then wordRunsAux rest []
    else acc.reverse :: wordRunsAux rest []

/-- All maximal word-character runs. -/
def wordRuns (l : JsText) : List JsText := wordRunsAux l []

/-- The sixteen common-English function words of `detectBasicLanguage`. -/
def englishFunctionWords : List String :=
  ["the", "and", "is", "in", "to", "of", "a", "that", "it", "with",
   "for", "as", "was", "on", "are", "you"]

/-- `(content.match(/\b(the|and|...)\b/gi) || []).length`: the number of
maximal word runs equal (case-insensitively) to a listed function word. -/
def englishMatchCount (l : JsText) : ℕ :=
  (wordRuns l).countP fun w => englishFunctionWords.any fun e => e.toList = jsToLower w

/-- `detectBasicLanguage`: more than two function-word matches means
`en`, otherwise `unknown`. -/
def detectBasicLanguage (l : JsText) : String :=
  if 2 < englishMatchCount l then "en" else "unknown"

/-- The metadata record of `PreprocessedContent`. -/
structure ContentMetadata where
  hasEmojis : Bool
  hasUrls : Bool
  hasHashtags : Bool
  hasMentions : Bool
  wordCount : ℕ
  characterCount : ℕ
  language : String
  encoding : String
deriving DecidableEq, Repr

/-- `PreprocessedContent`. -/
structure PreprocessedContent where
  original : JsText
  normalized : JsText
  metadata : ContentMetadata
deriving DecidableEq, Repr

/-- `generateMetadata`: pattern flags read the original text, counts and
language read the normalized text. -/
def generateMetadata (original normalized : JsText) : ContentMetadata :=
  { hasEmojis := original.any isEmojiChar
    hasUrls := original.tails.any isUrlStart
    hasHashtags := hasHashtagsTest original
    hasMentions := hasMentionsTest original
    wordCount := wordCountOf normalized
    characterCount := normalized.length
    language := detectBasicLanguage normalized
    encoding := "utf-8" }

/-- `ContentPreprocessor.preprocess` on non-empty input (the throw on
empty input is caught — and turned into a manual-review outcome — by
`EdgeCaseHandler.handleEdgeCase`, which is modelled there). -/
def preprocess (content : JsText) : PreprocessedContent :=
  let n1 := fixEncoding content
  let n2 := normalizeUnicode n1
  let n3 := handleObfuscation n2
  let n4 := smartNormalization n3
  { original := content, normalized := n4, metadata := generateMetadata content n4 }

end ContentPreprocessor

/-! ## Edge-case handler
(src/services/optimizations/edge-case-handler.ts) -/

/-- The `recommendedAction` union of `EdgeCaseResult`. -/
inductive RecommendedAction where
  | allow
  | flag
  | reject
  | manual_review
deriving DecidableEq, Repr

/-- `EdgeCaseResult`. -/
structure EdgeCaseResult where
  handled : Bool
  reason : String
  result : Option DetectionResult
  recommendedAction : RecommendedAction
deriving DecidableEq, Repr

namespace EdgeCaseHandler

open ContentPreprocessor

/-- `createSpecialResult`: the fixed policy verdict of every
short-circuit — score 0.9 / 0.5 / 0.3 by decision class, confidence 0.8,
and a timestamp-based placeholder fingerprint
(`edge_case_${Date.now()}`). -/
def createSpecialResult (_content : JsText) (decision : DetectionDecision)
    (_reason : String) (indicators : List SpamIndicator) (now : ℕ) : DetectionResult :=
  { decision := decision
    overallScore :=
      if decision = .reject then 0.9 else if decision = .flag then 0.5 else 0.3
    confidence := 0.8
    indicators := indicators
    processingTime := 1.0
    contentHash := "edge_case_" ++ toString now }

/-- `createEmptyContentResult`. -/
def createEmptyContentResult (content : JsText) (now : ℕ) : DetectionResult :=
  createSpecialResult content .reject "Empty or meaningless content" [] now

/-- `createShortContentResult`. -/
def createShortContentResult (content : JsText) (now : ℕ) : DetectionResult :=
  createSpecialResult content .flag "Extremely short content" [] now

/-- `createLongContentResult`. -/
def createLongContentResult (content : JsText) (now : ℕ) : DetectionResult :=
  createSpecialResult content .flag "Content exceeds length limits" [] now

/-- `createEncodingResult`. -/
def createEncodingResult (content : JsText) (now : ℕ) : DetectionResult :=
  createSpecialResult content .under_review "Encoding issues detected" [] now

/-- `createObfuscationResult`: the one short-circuit verdict carrying a
synthetic indicator. -/
def createObfuscationResult (content : JsText) (obfType : String) (now : ℕ) :
    DetectionResult :=
  createSpecialResult content .reject "Obfuscation attempt"
    [{ indType := .character_patterns, severity := .high, confidence := 0.9,
       evidence := ["Obfuscation detected: " ++ obfType], weight := 0.8 }] now

/-- `createLanguageResult`. -/
def createLanguageResult (content : JsText) (now : ℕ) : DetectionResult :=
  createSpecialResult content .flag "Language detection issues" [] now

/-- `createSpecialCharResult`. -/
def createSpecialCharResult (content : JsText) (now : ℕ) : DetectionResult :=
  createSpecialResult content .flag "Excessive special characters" [] now

/-- `createContextualResult`. -/
def createContextualResult (content : JsText) (ctxType : String) (now : ℕ) :
    DetectionResult :=
  createSpecialResult content .flag ("Contextual issue: " ++ ctxType) [] now

/-- `createErrorResult` of the edge-case handler. -/
def createErrorResult (content : JsText) (errorType : String) (now : ℕ) :
    DetectionResult :=
  createSpecialResult content .under_review ("Processing error: " ++ errorType) [] now

/-- The `handled: false` outcome every predicate returns when it does not
fire. -/
def notHandled : EdgeCaseResult :=
  { handled := false, reason := "", result := none, recommendedAction := .allow }

/-- `handleEmptyContent`. -/
def handleEmptyContent (p : PreprocessedContent) (now : ℕ) : EdgeCaseResult :=
  if (jsTrim p.normalized).length = 0 then
    { handled := true, reason := "Empty content after preprocessing",
      result := some (createEmptyContentResult p.original now),
      recommendedAction := .reject }
  else if p.metadata.wordCount = 0 then
    { handled := true, reason := "No meaningful words found",
      result := some (createEmptyContentResult p.original now),
      recommendedAction := .reject }
  else notHandled

/-- `handleExtremeLength`. -/
def handleExtremeLength (p : PreprocessedContent) (now : ℕ) : EdgeCaseResult :=
  if p.metadata.characterCount < 3 ∧ p.metadata.wordCount = 1 then
    { handled := true, reason := "Extremely short content",
      result := some (createShortContentResult p.original now),
      recommendedAction := .flag }
  else if p.metadata.characterCount > 2000 then
    { handled := true, reason := "Content exceeds reasonable length",
      result := some (createLongContentResult p.original now),
      recommendedAction := .flag }
  else notHandled

/-- The `[�\u0000-\u001F\u007F-\u009F]` control/replacement
characters. -/
def isUnicodeIssue (c : Char) : Bool :=
  c.toNat = 0xFFFD ∨ c.toNat ≤ 0x1F ∨ (0x7F ≤ c.toNat ∧ c.toNat ≤ 0x9F)

/-- `handleEncodingIssues`.  For empty originals the reduction quotient
is `0/0`: NaN in JavaScript, `0` in `ℚ` — both fail the `> 0.5` test, so
the branching agrees. -/
def handleEncodingIssues (p : PreprocessedContent) (now : ℕ) : EdgeCaseResult :=
  let originalLength : ℚ := p.original.length
  let normalizedLength : ℚ := p.normalized.length
  let reductionPart : ℚ := (originalLength - normalizedLength) / originalLength
  if reductionPart > 0.5 ∧ p.original.length > 20 then
    { handled := true,
      reason := "Significant character loss during preprocessing - possible encoding issues",
      result := some (createEncodingResult p.original now),
      recommendedAction := .manual_review }
  else if p.original.countP isUnicodeIssue > 5 then
    { handled := true, reason := "Multiple Unicode encoding issues detected",
      result := some (createEncodingResult p.original now),
      recommendedAction := .manual_review }
  else notHandled

/-- The case-insensitive `[а-я]` class (Cyrillic а–я and А–Я). -/
def isCyrillicAYa (c : Char) : Bool :=
  (0x430 ≤ c.toNat ∧ c.toNat ≤ 0x44F) ∨ (0x410 ≤ c.toNat ∧ c.toNat ≤ 0x42F)

/-- Can `.*` (which does not cross line terminators) reach a character
satisfying `p`? -/
def reachableNoNl (p : Char → Bool) : JsText → Bool
  | [] => false
  | c :: rest => if p c then true else if isJsNewline c then false else reachableNoNl p rest

/-- `/[а-я].*[a-z]|[a-z].*[а-я]/i` — mixed Cyrillic/Latin homograph
pattern. -/
def homographTest (l : JsText) : Bool :=
  l.tails.any fun t =>
    match t with
    | c :: rest =>
      (isCyrillicAYa c && reachableNoNl isAsciiLetter rest) ||
      (isAsciiLetter c && reachableNoNl isCyrillicAYa rest)
    | [] => false

/-- The `[0-9@$!]` symbol class of the substitution check. -/
def isSubstitutionSymbol (c : Char) : Bool :=
  isAsciiDigit c ∨ c = '@' ∨ c = '$' ∨ c = '!'

/-- `handleObfuscation` (the edge-case predicate, distinct from the
preprocessor step of the same name). -/
def handleObfuscation (p : PreprocessedContent) (now : ℕ) : EdgeCaseResult :=
  if p.original.countP isZeroWidth > 10 then
    { handled := true,
      reason := "Excessive zero-width characters detected (obfuscation attempt)",
      result := some (createObfuscationResult p.original "zero_width_abuse" now),
      recommendedAction := .reject }
  else if homographTest p.original then
    { handled := true, reason := "Potential homograph attack detected",
      result := some (createObfuscationResult p.original "homograph_attack" now),
      recommendedAction := .flag }
  else
    let symbolCount : ℕ := p.original.countP isSubstitutionSymbol
    let letterCount : ℕ := p.original.countP isAsciiLetter
    if letterCount > 0 ∧ (symbolCount : ℚ) / (letterCount : ℚ) > 0.3 then
      { handled := true, reason := "Excessive symbol substitution detected",
        result := some (createObfuscationResult p.original "symbol_substitution" now),
        recommendedAction := .flag }
    else notHandled

/-- `handleNonEnglishContent`: unknown language with a word count
strictly between 5 and 20. -/
def handleNonEnglishContent (p : PreprocessedContent) (now : ℕ) : EdgeCaseResult :=
  if p.metadata.language = "unknown" ∧ p.metadata.wordCount > 5 ∧
      p.metadata.wordCount < 20 then
    { handled := true, reason := "Unknown language with suspicious length",
      result := some (createLanguageResult p.original now),
      recommendedAction := .flag }
  else notHandled

/-- The `[^\w\s.,!?@#-]` class of the special-character check. -/
def isSpecialChar (c : Char) : Bool :=
  ¬ (isWordChar c ∨ jsWhitespace c ∨ c = '.' ∨ c = ',' ∨ c = '!' ∨ c = '?' ∨
     c = '@' ∨ c = '#' ∨ c = '-')

/-- `handleSpecialCharacters`. -/
def handleSpecialCharacters (p : PreprocessedContent) (now : ℕ) : EdgeCaseResult :=
  let specialCharCount : ℕ := p.original.countP isSpecialChar
  let totalCharCount : ℕ := p.original.length
  if totalCharCount > 50 ∧ (specialCharCount : ℚ) / (totalCharCount : ℚ) > 0.4 then
    { handled := true, reason := "Excessive special characters detected",
      result := some (createSpecialCharResult p.original now),
      recommendedAction := .flag }
  else notHandled

/-- Non-overlapping match count of `/@\w+/g` (the flag skips the
word-character run consumed by the previous match). -/
def mentionCountAux : JsText → Bool → ℕ
  | [], _ => 0
  | [_], _ => 0
  | c :: c2 :: rest, inWord =>
    if inWord ∧ isWordChar c then mentionCountAux (c2 :: rest) true
    else if c = '@' then
      (if isWordChar c2 then 1 + mentionCountAux rest true
       else mentionCountAux (c2 :: rest) false)
    else mentionCountAux (c2 :: rest) false

/-- `(preprocessed.original.match(/@\w+/g) || []).length`. -/
def mentionCount (l : JsText) : ℕ := mentionCountAux l false

/-- `handleContextualEdgeCases`. -/
def handleContextualEdgeCases (p : PreprocessedContent) (now : ℕ) : EdgeCaseResult :=
  if (p.metadata.hasUrls ∨ p.metadata.hasHashtags) ∧ p.metadata.wordCount < 3 then
    { handled := true, reason := "Minimal text with URLs/hashtags",
      result := some (createContextualResult p.original "link_spam" now),
      recommendedAction := .flag }
  else
    let mentions := mentionCount p.original
    if mentions > 5 then
      { handled := true, reason := "Excessive mentions: " ++ toString mentions,
        result := some (createContextualResult p.original "mention_spam" now),
        recommendedAction := .flag }
    else notHandled

/-- The ordered predicate chain of `handleEdgeCase` (first match wins). -/
def classifyPreprocessed (p : PreprocessedContent) (now : ℕ) : EdgeCaseResult :=
  let r1 := handleEmptyContent p now
  if r1.handled then r1 else
  let r2 := handleExtremeLength p now
  if r2.handled then r2 else
  let r3 := handleEncodingIssues p now
  if r3.handled then r3 else
  let r4 := handleObfuscation p now
  if r4.handled then r4 else
  let r5 := handleNonEnglishContent p now
  if r5.handled then r5 else
  let r6 := handleSpecialCharacters p now
  if r6.handled then r6 else
  let r7 := handleContextualEdgeCases p now
  if r7.handled then r7 else
  { handled := false, reason := "No edge cases detected", result := none,
    recommendedAction := .allow }

/-- `handleEdgeCase`: on empty input `preprocess` throws and the catch
returns a manual-review outcome; otherwise the predicate chain runs on
the preprocessed content. -/
def handleEdgeCase (content : JsText) (now : ℕ) : EdgeCaseResult :=
  if content.isEmpty then
    { handled := true,
      reason := "Preprocessing error: Content must be a non-empty string",
      result := some (createErrorResult content "preprocessing_error" now),
      recommendedAction := .manual_review }
  else classifyPreprocessed (ContentPreprocessor.preprocess content) now

end EdgeCaseHandler

/-! ## Performance monitor (recording state only; the reporting side is
observational and never feeds back into a verdict)
(src/services/optimizations/performance-monitor.ts) -/

/-- The mutable counters of `PerformanceMonitor` touched by the enhanced
service. -/
structure PerformanceMonitor where
  processingTimes : List ℚ
  requestCount : ℕ
  errorCount : ℕ
  cacheHits : ℕ
  cacheMisses : ℕ
deriving DecidableEq, Repr

namespace PerformanceMonitor

/-- The fresh monitor. -/
def init : PerformanceMonitor :=
  { processingTimes := [], requestCount := 0, errorCount := 0,
    cacheHits := 0, cacheMisses := 0 }

/-- `MAX_PROCESSING_TIMES`. -/
def MAX_PROCESSING_TIMES : ℕ := 1000

/-- `recordProcessingTime`: push, then keep only the most recent
`MAX_PROCESSING_TIMES` samples (`slice(-MAX)`). -/
def recordProcessingTime (t : ℚ) (m : PerformanceMonitor) : PerformanceMonitor :=
  let times := m.processingTimes ++ [t]
  { m with
    processingTimes :=
      if times.length > MAX_PROCESSING_TIMES then
        times.drop (times.length - MAX_PROCESSING_TIMES)
      else times
    requestCount := m.requestCount + 1 }

/-- `recordCacheHit`. -/
def recordCacheHit (m : PerformanceMonitor) : PerformanceMonitor :=
  { m with cacheHits := m.cacheHits + 1 }

/-- `recordCacheMiss`. -/
def recordCacheMiss (m : PerformanceMonitor) : PerformanceMonitor :=
  { m with cacheMisses := m.cacheMisses + 1 }

/-- `recordError`. -/
def recordError (m : PerformanceMonitor) : PerformanceMonitor :=
  { m with errorCount := m.errorCount + 1 }

end PerformanceMonitor

/-! ## Enhanced detection service
(src/services/enhanced-spam-detection-service.ts, in part_004) -/

/-- The mutable state of `EnhancedSpamDetectionService`. -/
structure EnhancedState where
  cache : MemoryCache
  monitor : PerformanceMonitor
deriving DecidableEq, Repr

namespace EnhancedSpamDetectionService

/-- `EnhancedSpamDetectionService.analyzeContent`.  All throw sites —
including the empty-input validation throw — are inside the `try`, so
the catch converts every failure into the fixed fallback verdict and no
exception escapes; the returned type is therefore a plain pair.  The
elapsed wall time measured at each return is the parameter
`processingTime`. -/
def analyzeContent (rules : List DetectionRule) (digest : JsText → String)
    (content : JsText) (now : ℕ) (processingTime : ℚ) (st : EnhancedState) :
    DetectionResult × EnhancedState :=
  if (jsTrim content).isEmpty then
    ({ decision := .under_review, overallScore := 0.5, confidence := 0.1,
       indicators := [], processingTime := processingTime,
       contentHash := createContentHash digest content },
     { st with monitor := st.monitor.recordError })
  else
    let edgeCase := EdgeCaseHandler.handleEdgeCase content now
    match edgeCase.result with
    | some r =>
      if edgeCase.handled then
        ({ r with processingTime := processingTime },
         { st with monitor := st.monitor.recordProcessingTime processingTime })
      else analyzeMain rules digest content now processingTime st
    | none => analyzeMain rules digest content now processingTime st
where
  /-- Steps 3–6: cache lookup, full engine analysis, cache store. -/
  analyzeMain (rules : List DetectionRule) (digest : JsText → String)
      (content : JsText) (now : ℕ) (processingTime : ℚ) (st : EnhancedState) :
      DetectionResult × EnhancedState :=
    let contentHash := createContentHash digest content
    match MemoryCache.get contentHash now st.cache with
    | (some cached, cache1) =>
      ({ cached with processingTime := processingTime },
       { cache := cache1, monitor := st.monitor.recordCacheHit })
    | (none, cache1) =>
      let result := SpamDetectionEngine.analyzeContent rules digest content processingTime
      ({ result with processingTime := processingTime },
       { cache := MemoryCache.set contentHash result none now cache1,
         monitor := (st.monitor.recordCacheMiss).recordProcessingTime processingTime })
end EnhancedSpamDetectionService

/-! ## Claim theorems -/

/-- C2: for every list of emitted signals (with confidences in `[0,1]`
and nonnegative weights, as every extractor produces), the aggregation
engine's `overallScore` is the weight-weighted average of the signal
confidences (`0` when no signal was emitted), always lies in `[0,1]`,
and the decision follows the fixed thresholds `≤0.2` allow, `≤0.5` flag,
`≤0.7` under_review, else reject. -/
theorem C2_aggregation_score_bounds_and_decision
    (indicators : List SpamIndicator) (contentHash : String) (pt : ℚ)
    (hconf : ∀ i ∈ indicators, 0 ≤ i.confidence ∧ i.confidence ≤ 1)
    (hw : ∀ i ∈ indicators, 0 ≤ i.weight) :
    (SpamDetectionEngine.calculateFinalDecision indicators contentHash pt).overallScore =
      (if (indicators.map (·.weight)).sum > 0 then
        (indicators.map (fun i => i.confidence * i.weight)).sum /
          (indicators.map (·.weight)).sum
       else 0) ∧
    (indicators = [] →
      (SpamDetectionEngine.calculateFinalDecision indicators contentHash pt).overallScore = 0) ∧
    0 ≤ (SpamDetectionEngine.calculateFinalDecision indicators contentHash pt).overallScore ∧
    (SpamDetectionEngine.calculateFinalDecision indicators contentHash pt).overallScore ≤ 1 ∧
    (SpamDetectionEngine.calculateFinalDecision indicators contentHash pt).decision =
      (if (SpamDetectionEngine.calculateFinalDecision indicators contentHash pt).overallScore
            ≤ 0.2 then .allow
       else if (SpamDetectionEngine.calculateFinalDecision indicators contentHash pt).overallScore
            ≤ 0.5 then .flag
       else if (SpamDetectionEngine.calculateFinalDecision indicators contentHash pt).overallScore
            ≤ 0.7 then .under_review
       else .reject) := by
  have hts0 : 0 ≤ (indicators.map fun i => i.confidence * i.weight).sum :=
    List.sum_nonneg fun x hx => by
      obtain ⟨i, hi, rfl⟩ := List.mem_map.1 hx
      exact mul_nonneg (hconf i hi).1 (hw i hi)
  have htsw : (indicators.map fun i => i.confidence * i.weight).sum ≤
      (indicators.map (·.weight)).sum :=
    List.sum_le_sum fun i hi => mul_le_of_le_one_left (hw i hi) (hconf i hi).2
  have hscore : (SpamDetectionEngine.calculateFinalDecision indicators contentHash pt).overallScore =
      (if (indicators.map (·.weight)).sum > 0 then
        (indicators.map (fun i => i.confidence * i.weight)).sum /
          (indicators.map (·.weight)).sum
       else 0) := rfl
  refine ⟨hscore, ?_, ?_, ?_, rfl⟩
  · rintro rfl; rw [hscore]; simp
  · rw [hscore]; split
    · exact div_nonneg hts0 (le_of_lt (by assumption))
    · exact le_refl 0
  · rw [hscore]; split
    · exact (div_le_one (by assumption)).2 htsw
    · exact zero_le_one

/-- A sample emitted signal used by concrete witnesses. -/
def sampleIndicator : SpamIndicator :=
  { indType := .promotional, severity := .medium, confidence := 1/2,
    evidence := [], weight := 1/4 }

/-- C2 (witness): the aggregation properties evaluated at one concrete
emitted signal (confidence 1/2, weight 1/4). -/
theorem C2_aggregation_witness :
    (SpamDetectionEngine.calculateFinalDecision [sampleIndicator] "h" 0).overallScore =
      (if ([sampleIndicator].map (·.weight)).sum > 0 then
        ([sampleIndicator].map (fun i => i.confidence * i.weight)).sum /
          ([sampleIndicator].map (·.weight)).sum
       else 0) ∧
    ([sampleIndicator] = ([] : List SpamIndicator) →
      (SpamDetectionEngine.calculateFinalDecision [sampleIndicator] "h" 0).overallScore = 0) ∧
    0 ≤ (SpamDetectionEngine.calculateFinalDecision [sampleIndicator] "h" 0).overallScore ∧
    (SpamDetectionEngine.calculateFinalDecision [sampleIndicator] "h" 0).overallScore ≤ 1 ∧
    (SpamDetectionEngine.calculateFinalDecision [sampleIndicator] "h" 0).decision =
      (if (SpamDetectionEngine.calculateFinalDecision [sampleIndicator] "h" 0).overallScore
            ≤ 0.2 then .allow
       else if (SpamDetectionEngine.calculateFinalDecision [sampleIndicator] "h" 0).overallScore
            ≤ 0.5 then .flag
       else if (SpamDetectionEngine.calculateFinalDecision [sampleIndicator] "h" 0).overallScore
            ≤ 0.7 then .under_review
       else .reject) :=
  C2_aggregation_score_bounds_and_decision [sampleIndicator] "h" 0
    (by intro i hi; rw [List.mem_singleton] at hi; subst hi
        constructor <;> norm_num [sampleIndicator])
    (by intro i hi; rw [List.mem_singleton] at hi; subst hi
        norm_num [sampleIndicator])

/-- C3: the aggregation engine's reported confidence is `1` for an empty
signal list and otherwise
`min(indicatorFactor * scoreFactor * avgIndicatorConfidence, 1)` with
`indicatorFactor = min(count/3, 1)`,
`scoreFactor = 1 if score < 0.2 or score > 0.8 else 0.7` and
`avgIndicatorConfidence` the mean signal confidence; for signals with
confidences in `[0,1]` the result always lies in `[0,1]`. -/
theorem C3_confidence_formula_and_bounds
    (indicators : List SpamIndicator) (score : ℚ)
    (hconf : ∀ i ∈ indicators, 0 ≤ i.confidence ∧ i.confidence ≤ 1) :
    (indicators = [] → SpamDetectionEngine.calculateConfidence indicators score = 1) ∧
    (indicators ≠ [] →
      SpamDetectionEngine.calculateConfidence indicators score =
        min (min ((indicators.length : ℚ) / 3) 1 *
             (if score < 0.2 ∨ score > 0.8 then 1 else 0.7) *
             ((indicators.map (·.confidence)).sum / (indicators.length : ℚ))) 1) ∧
    0 ≤ SpamDetectionEngine.calculateConfidence indicators score ∧
    SpamDetectionEngine.calculateConfidence indicators score ≤ 1 := by
  have hsum : 0 ≤ (indicators.map (·.confidence)).sum :=
    List.sum_nonneg fun x hx => by
      obtain ⟨i, hi, rfl⟩ := List.mem_map.1 hx
      exact (hconf i hi).1
  by_cases hnil : indicators = []
  · subst hnil
    refine ⟨fun _ => rfl, fun h => absurd rfl h, ?_, ?_⟩ <;>
      simp [SpamDetectionEngine.calculateConfidence]
  · have hlen : indicators.length ≠ 0 := fun h => hnil (List.length_eq_zero.1 h)
    have hform : SpamDetectionEngine.calculateConfidence indicators score =
        min (min ((indicators.length : ℚ) / 3) 1 *
             (if score < 0.2 ∨ score > 0.8 then 1 else 0.7) *
             ((indicators.map (·.confidence)).sum / (indicators.length : ℚ))) 1 := by
      simp [SpamDetectionEngine.calculateConfidence, hlen]
    have hA : (0 : ℚ) ≤ min ((indicators.length : ℚ) / 3) 1 :=
      le_min (by positivity) zero_le_one
    have hB : (0 : ℚ) ≤ (if score < 0.2 ∨ score > 0.8 then (1 : ℚ) else 0.7) := by
      split <;> norm_num
    have hC : (0 : ℚ) ≤ (indicators.map (·.confidence)).sum / (indicators.length : ℚ) :=
      div_nonneg hsum (Nat.cast_nonneg _)
    refine ⟨fun h => absurd h hnil, fun _ => hform, ?_, ?_⟩
    · rw [hform]
      exact le_min (mul_nonneg (mul_nonneg hA hB) hC) zero_le_one
    · rw [hform]
      exact min_le_right _ _

/-- C3 (witness): the confidence properties evaluated at one concrete
emitted signal. -/
theorem C3_confidence_witness :
    ([sampleIndicator] = ([] : List SpamIndicator) →
      SpamDetectionEngine.calculateConfidence [sampleIndicator] (1/2) = 1) ∧
    ([sampleIndicator] ≠ ([] : List SpamIndicator) →
      SpamDetectionEngine.calculateConfidence [sampleIndicator] (1/2) =
        min (min (([sampleIndicator].length : ℚ) / 3) 1 *
             (if (1/2 : ℚ) < 0.2 ∨ (1/2 : ℚ) > 0.8 then 1 else 0.7) *
             (([sampleIndicator].map (·.confidence)).sum / ([sampleIndicator].length : ℚ))) 1) ∧
    0 ≤ SpamDetectionEngine.calculateConfidence [sampleIndicator] (1/2) ∧
    SpamDetectionEngine.calculateConfidence [sampleIndicator] (1/2) ≤ 1 :=
  C3_confidence_formula_and_bounds [sampleIndicator] (1/2)
    (by intro i hi; rw [List.mem_singleton] at hi; subst hi
        constructor <;> norm_num [sampleIndicator])

/-- C8: a signal extractor that throws is caught locally and contributes
no signal — the engine's analysis of any content with the throwing rule
present equals the analysis with that rule removed, and (by the
exception-free return type of the engine) no exception reaches the
caller. -/
theorem C8_extractor_failure_isolated
    (pre post : List DetectionRule) (rule : DetectionRule)
    (digest : JsText → String) (content : JsText) (pt : ℚ) (e : String)
    (herr : rule.execute content = .error e) :
    SpamDetectionEngine.analyzeContent (pre ++ rule :: post) digest content pt =
      SpamDetectionEngine.analyzeContent (pre ++ post) digest content pt := by
  unfold SpamDetectionEngine.analyzeContent
  split
  · rfl
  · by_cases hr : rule.enabled = true
    · simp [List.filter_append, List.filter_cons, hr, List.map_append,
            List.filterMap_append, SpamDetectionEngine.executeRuleSafely, herr]
    · simp [List.filter_append, List.filter_cons, hr]

/-- A rule that always throws, used by the C8 witness. -/
def throwingRule : DetectionRule :=
  { name := "boom", enabled := true, execute := fun _ => .error "boom" }

/-- A rule that always emits `sampleIndicator`, used by the C8 witness. -/
def emittingRule : DetectionRule :=
  { name := "emit", enabled := true, execute := fun _ => .ok (some sampleIndicator) }

/-- C8 (witness): with a concrete emitting rule and a concrete throwing
rule, analysing "hello" with the throwing rule present gives the same
verdict as without it. -/
theorem C8_extractor_failure_witness :
    SpamDetectionEngine.analyzeContent ([emittingRule] ++ throwingRule :: [])
        (fun _ => "h") "hello".toList 0 =
      SpamDetectionEngine.analyzeContent ([emittingRule] ++ []) (fun _ => "h")
        "hello".toList 0 :=
  C8_extractor_failure_isolated [emittingRule] [] throwingRule (fun _ => "h")
    "hello".toList 0 "boom" rfl

/-- C1: the public analyze operation (`SpamDetectionService.analyzeContent`,
the service behind the HTTP controller) throws its input-validation error
exactly for empty/blank text, and for every other input returns a verdict
and new cache state — no exception escapes because every other throw site
is caught inside the engine. -/
theorem C1_analyze_error_iff_blank
    (rules : List DetectionRule) (digest : JsText → String) (content : JsText)
    (now : ℕ) (pt : ℚ) (cache : MemoryCache) :
    (SpamDetectionService.analyzeContent rules digest content now pt cache =
        .error .emptyContent ↔ jsTrim content = []) ∧
    (jsTrim content ≠ [] →
      ∃ v c', SpamDetectionService.analyzeContent rules digest content now pt cache =
        .ok (v, c')) := by
  unfold SpamDetectionService.analyzeContent
  constructor
  · constructor
    · intro h
      by_contra hne
      rw [if_neg (by simpa [List.isEmpty_iff] using hne)] at h
      simp only [] at h
      split at h <;> simp_all
    · intro h
      rw [if_pos (by simp [List.isEmpty_iff, h])]
  · intro hne
    rw [if_neg (by simpa [List.isEmpty_iff] using hne)]
    simp only []
    split
    · exact ⟨_, _, rfl⟩
    · exact ⟨_, _, rfl⟩

/-- C1 (witness): the empty input raises the input-validation error and a
concrete non-blank input yields a verdict. -/
theorem C1_analyze_witness :
    SpamDetectionService.analyzeContent [] (fun _ => "h") "".toList 0 0
        (MemoryCache.init 10 100) = .error .emptyContent ∧
    (∃ v c', SpamDetectionService.analyzeContent [] (fun _ => "h") "hello".toList 0 0
        (MemoryCache.init 10 100) = .ok (v, c')) :=
  ⟨(C1_analyze_error_iff_blank [] (fun _ => "h") "".toList 0 0
      (MemoryCache.init 10 100)).1.mpr (by decide),
   (C1_analyze_error_iff_blank [] (fun _ => "h") "hello".toList 0 0
      (MemoryCache.init 10 100)).2 (by decide)⟩

/-- Looking up a key right after `setKey` finds the new entry. -/
theorem lookup_setKey (k : String) (e : CacheEntry) :
    ∀ l, List.lookup k (MemoryCache.setKey k e l) = some e := by
  intro l
  induction l with
  | nil => simp [MemoryCache.setKey, List.lookup]
  | cons p rest ih =>
    obtain ⟨a, b⟩ := p
    by_cases hp : a = k
    · simp [MemoryCache.setKey, hp, List.lookup]
    · have hba : (k == a) = false := by simp [Ne.symm hp]
      simp only [MemoryCache.setKey, hp, if_false, List.lookup]
      simp [hba, ih]

/-- Erasing a key removes every binding of that key. -/
theorem lookup_eraseKey_self (k : String) :
    ∀ l, List.lookup k (MemoryCache.eraseKey k l) = none := by
  intro l
  induction l with
  | nil => rfl
  | cons p rest ih =>
    obtain ⟨a, b⟩ := p
    by_cases hp : a = k
    · simpa [MemoryCache.eraseKey, List.filter_cons, hp] using ih
    · have h1 : decide (a ≠ k) = true := by simp [hp]
      have hba : (k == a) = false := by simp [Ne.symm hp]
      simp only [MemoryCache.eraseKey, List.filter_cons] at ih ⊢
      simp only [h1, if_true, List.lookup, hba]
      exact ih

/-- A filter and its complement split the length of a list. -/
theorem filterSplitLength {α : Type} (q : α → Bool) :
    ∀ l : List α, (l.filter q).length + (l.filter (fun x => ! q x)).length = l.length := by
  intro l
  induction l with
  | nil => rfl
  | cons x rest ih =>
    by_cases hx : q x
    · simp [List.filter, hx]; omega
    · simp [List.filter, hx]; omega

/-- C10: `set` with a ttl argument of 0 or with the argument omitted
stores the default time-to-live; consequently (default ttl being
positive) every entry created through `set` has an armed expiry
(`ttl ≠ 0`) and is not yet expired at any time up to its deadline — no
immediately-expired entry and no expiry-free entry can be created. -/
theorem C10_set_ttl_default (c : MemoryCache) (k : String) (v : DetectionResult)
    (now : ℕ) (hd : 0 < c.defaultTtl) :
    (∀ ttlArg ∈ ([some 0, none] : List (Option ℕ)), ∃ e : CacheEntry,
       List.lookup k (MemoryCache.set k v ttlArg now c).cache = some e ∧
       e.ttl = c.defaultTtl) ∧
    (∀ ttlArg : Option ℕ, ∃ e : CacheEntry,
       List.lookup k (MemoryCache.set k v ttlArg now c).cache = some e ∧
       e.ttl ≠ 0 ∧ e.timestamp = now ∧
       ∀ t, t ≤ now + e.ttl → MemoryCache.expiredAt e t = false) := by
  have hfind : ∀ ttlArg : Option ℕ,
      List.lookup k (MemoryCache.set k v ttlArg now c).cache =
        some { value := v, timestamp := now, hits := 0,
               ttl := MemoryCache.jsOrTtl ttlArg c.defaultTtl } := by
    intro ttlArg
    unfold MemoryCache.set
    exact lookup_setKey _ _ _
  constructor
  · intro ttlArg httl
    refine ⟨_, hfind ttlArg, ?_⟩
    rcases List.mem_cons.1 httl with rfl | h2
    · rfl
    · rcases List.mem_cons.1 h2 with rfl | h3
      · rfl
      · exact absurd h3 (List.not_mem_nil _)
  · intro ttlArg
    refine ⟨_, hfind ttlArg, ?_, rfl, ?_⟩
    · rcases ttlArg with _ | t
      · simp only [MemoryCache.jsOrTtl]; omega
      · by_cases ht : t = 0
        · simp [MemoryCache.jsOrTtl, ht]; omega
        · simp [MemoryCache.jsOrTtl, ht]
    · intro t ht
      simp only [MemoryCache.expiredAt, decide_eq_false_iff_not, not_and, not_lt]
      intro _
      exact ht

/-- C10 (witness): storing with ttl 0 / omitted at a concrete cache. -/
theorem C10_set_ttl_witness :
    (∀ ttlArg ∈ ([some 0, none] : List (Option ℕ)), ∃ e : CacheEntry,
       List.lookup "k" (MemoryCache.set "k" (SpamDetectionEngine.createEmptyResult "h" 0)
           ttlArg 3 (MemoryCache.init 10 7)).cache = some e ∧
       e.ttl = (MemoryCache.init 10 7).defaultTtl) ∧
    (∀ ttlArg : Option ℕ, ∃ e : CacheEntry,
       List.lookup "k" (MemoryCache.set "k" (SpamDetectionEngine.createEmptyResult "h" 0)
           ttlArg 3 (MemoryCache.init 10 7)).cache = some e ∧
       e.ttl ≠ 0 ∧ e.timestamp = 3 ∧
       ∀ t, t ≤ 3 + e.ttl → MemoryCache.expiredAt e t = false) :=
  C10_set_ttl_default (MemoryCache.init 10 7) "k"
    (SpamDetectionEngine.createEmptyResult "h" 0) 3 (by decide)

/-- C6: a `get` of a fingerprint strictly after its insertion time plus
its effective (non-zero) time-to-live reports the entry absent, deletes
it physically, and counts the access as a miss; and `cleanup` removes
exactly the expired entries, returning their number. -/
theorem C6_expiry_and_cleanup
    (c : MemoryCache) (k : String) (v : DetectionResult) (ttl : Option ℕ)
    (now t2 now2 : ℕ) (c2 : MemoryCache)
    (httl : MemoryCache.jsOrTtl ttl c.defaultTtl ≠ 0)
    (hspan : now + MemoryCache.jsOrTtl ttl c.defaultTtl < t2) :
    (MemoryCache.get k t2 (MemoryCache.set k v ttl now c)).1 = none ∧
    List.lookup k (MemoryCache.get k t2 (MemoryCache.set k v ttl now c)).2.cache = none ∧
    (MemoryCache.get k t2 (MemoryCache.set k v ttl now c)).2.misses =
      (MemoryCache.set k v ttl now c).misses + 1 ∧
    (MemoryCache.cleanup now2 c2).1.cache =
      c2.cache.filter (fun p => ¬ MemoryCache.expiredAt p.2 now2) ∧
    (MemoryCache.cleanup now2 c2).2 =
      (c2.cache.filter (fun p => MemoryCache.expiredAt p.2 now2)).length ∧
    (MemoryCache.cleanup now2 c2).2 + (MemoryCache.cleanup now2 c2).1.cache.length =
      c2.cache.length := by
  have hlk : List.lookup k (MemoryCache.set k v ttl now c).cache =
      some { value := v, timestamp := now, hits := 0,
             ttl := MemoryCache.jsOrTtl ttl c.defaultTtl } := lookup_setKey _ _ _
  have hexp : MemoryCache.expiredAt
      { value := v, timestamp := now, hits := 0,
        ttl := MemoryCache.jsOrTtl ttl c.defaultTtl } t2 = true := by
    simp [MemoryCache.expiredAt]
    omega
  have hget : MemoryCache.get k t2 (MemoryCache.set k v ttl now c) =
      (none, { MemoryCache.set k v ttl now c with
               cache := MemoryCache.eraseKey k (MemoryCache.set k v ttl now c).cache,
               misses := (MemoryCache.set k v ttl now c).misses + 1 }) := by
    unfold MemoryCache.get
    rw [hlk]
    simp [hexp]
  have hsplit : (MemoryCache.cleanup now2 c2).2 +
      (MemoryCache.cleanup now2 c2).1.cache.length = c2.cache.length := by
    have hfun : (fun p : String × CacheEntry =>
        (¬ MemoryCache.expiredAt p.2 now2 : Bool)) =
        (fun p : String × CacheEntry => ! MemoryCache.expiredAt p.2 now2) := by
      funext p
      simp
    simp only [MemoryCache.cleanup, hfun]
    exact filterSplitLength _ _
  exact ⟨by rw [hget], by rw [hget]; exact lookup_eraseKey_self _ _,
    by rw [hget], rfl, rfl, hsplit⟩

/-- A sample verdict for cache witnesses. -/
def c6v : DetectionResult := SpamDetectionEngine.createEmptyResult "h" 0

/-- A concrete two-entry cache (one entry expired at time 7, one not). -/
def c6c2 : MemoryCache :=
  { cache := [("a", { value := c6v, timestamp := 0, hits := 0, ttl := 5 }),
              ("b", { value := c6v, timestamp := 0, hits := 0, ttl := 100 })],
    hits := 0, misses := 0, maxEntries := 5, defaultTtl := 10 }

/-- C6 (witness): expiry read and cleanup evaluated on concrete caches. -/
theorem C6_expiry_witness :
    (MemoryCache.get "k" 20 (MemoryCache.set "k" c6v none 0 (MemoryCache.init 5 10))).1
        = none ∧
    List.lookup "k"
        (MemoryCache.get "k" 20 (MemoryCache.set "k" c6v none 0
          (MemoryCache.init 5 10))).2.cache = none ∧
    (MemoryCache.get "k" 20 (MemoryCache.set "k" c6v none 0
        (MemoryCache.init 5 10))).2.misses =
      (MemoryCache.set "k" c6v none 0 (MemoryCache.init 5 10)).misses + 1 ∧
    (MemoryCache.cleanup 7 c6c2).1.cache =
      c6c2.cache.filter (fun p => ¬ MemoryCache.expiredAt p.2 7) ∧
    (MemoryCache.cleanup 7 c6c2).2 =
      (c6c2.cache.filter (fun p => MemoryCache.expiredAt p.2 7)).length ∧
    (MemoryCache.cleanup 7 c6c2).2 + (MemoryCache.cleanup 7 c6c2).1.cache.length =
      c6c2.cache.length :=
  C6_expiry_and_cleanup (MemoryCache.init 5 10) "k" c6v none 0 20 7 c6c2
    (by decide) (by decide)

/-- The fixed policy constants every short-circuit verdict carries. -/
def FixedPolicyVerdict (r : DetectionResult) : Prop :=
  r.confidence = 0.8 ∧ r.decision ≠ .allow ∧
  r.overallScore =
    (if r.decision = .reject then 0.9 else if r.decision = .flag then 0.5 else 0.3)

/-- Every `createSpecialResult` with a non-allow decision carries the
fixed policy constants. -/
theorem fixedPolicy_create (content : JsText) (d : DetectionDecision) (reason : String)
    (inds : List SpamIndicator) (now : ℕ) (hd : d ≠ .allow) :
    FixedPolicyVerdict (EdgeCaseHandler.createSpecialResult content d reason inds now) :=
  ⟨rfl, hd, rfl⟩

/-- The empty-content predicate only emits fixed-policy verdicts. -/
theorem handleEmptyContent_fixed (p : ContentPreprocessor.PreprocessedContent)
    (now : ℕ) (r : DetectionResult)
    (h : (EdgeCaseHandler.handleEmptyContent p now).result = some r) :
    FixedPolicyVerdict r := by
  unfold EdgeCaseHandler.handleEmptyContent at h
  try simp only [] at h
  repeat' split at h
  all_goals first
    | (simp only [Option.some.injEq] at h; subst h
       exact fixedPolicy_create _ _ _ _ _ (by decide))
    | simp [EdgeCaseHandler.notHandled] at h

/-- The extreme-length predicate only emits fixed-policy verdicts. -/
theorem handleExtremeLength_fixed (p : ContentPreprocessor.PreprocessedContent)
    (now : ℕ) (r : DetectionResult)
    (h : (EdgeCaseHandler.handleExtremeLength p now).result = some r) :
    FixedPolicyVerdict r := by
  unfold EdgeCaseHandler.handleExtremeLength at h
  try simp only [] at h
  repeat' split at h
  all_goals first
    | (simp only [Option.some.injEq] at h; subst h
       exact fixedPolicy_create _ _ _ _ _ (by decide))
    | simp [EdgeCaseHandler.notHandled] at h

/-- The encoding predicate only emits fixed-policy verdicts. -/
theorem handleEncodingIssues_fixed (p : ContentPreprocessor.PreprocessedContent)
    (now : ℕ) (r : DetectionResult)
    (h : (EdgeCaseHandler.handleEncodingIssues p now).result = some r) :
    FixedPolicyVerdict r := by
  unfold EdgeCaseHandler.handleEncodingIssues at h
  try simp only [] at h
  repeat' split at h
  all_goals first
    | (simp only [Option.some.injEq] at h; subst h
       exact fixedPolicy_create _ _ _ _ _ (by decide))
    | simp [EdgeCaseHandler.notHandled] at h

/-- The obfuscation predicate only emits fixed-policy verdicts. -/
theorem handleObfuscation_fixed (p : ContentPreprocessor.PreprocessedContent)
    (now : ℕ) (r : DetectionResult)
    (h : (EdgeCaseHandler.handleObfuscation p now).result = some r) :
    FixedPolicyVerdict r := by
  unfold EdgeCaseHandler.handleObfuscation at h
  try simp only [] at h
  repeat' split at h
  all_goals first
    | (simp only [Option.some.injEq] at h; subst h
       exact fixedPolicy_create _ _ _ _ _ (by decide))
    | simp [EdgeCaseHandler.notHandled] at h

/-- The language predicate only emits fixed-policy verdicts. -/
theorem handleNonEnglishContent_fixed (p : ContentPreprocessor.PreprocessedContent)
    (now : ℕ) (r : DetectionResult)
    (h : (EdgeCaseHandler.handleNonEnglishContent p now).result = some r) :
    FixedPolicyVerdict r := by
  unfold EdgeCaseHandler.handleNonEnglishContent at h
  try simp only [] at h
  repeat' split at h
  all_goals first
    | (simp only [Option.some.injEq] at h; subst h
       exact fixedPolicy_create _ _ _ _ _ (by decide))
    | simp [EdgeCaseHandler.notHandled] at h

/-- The special-character predicate only emits fixed-policy verdicts. -/
theorem handleSpecialCharacters_fixed (p : ContentPreprocessor.PreprocessedContent)
    (now : ℕ) (r : DetectionResult)
    (h : (EdgeCaseHandler.handleSpecialCharacters p now).result = some r) :
    FixedPolicyVerdict r := by
  unfold EdgeCaseHandler.handleSpecialCharacters at h
  try simp only [] at h
  repeat' split at h
  all_goals first
    | (simp only [Option.some.injEq] at h; subst h
       exact fixedPolicy_create _ _ _ _ _ (by decide))
    | simp [EdgeCaseHandler.notHandled] at h

/-- The contextual predicate only emits fixed-policy verdicts. -/
theorem handleContextualEdgeCases_fixed (p : ContentPreprocessor.PreprocessedContent)
    (now : ℕ) (r : DetectionResult)
    (h : (EdgeCaseHandler.handleContextualEdgeCases p now).result = some r) :
    FixedPolicyVerdict r := by
  unfold EdgeCaseHandler.handleContextualEdgeCases at h
  try simp only [] at h
  repeat' split at h
  all_goals first
    | (simp only [Option.some.injEq] at h; subst h
       exact fixedPolicy_create _ _ _ _ _ (by decide))
    | simp [EdgeCaseHandler.notHandled] at h

/-- The whole predicate chain only emits fixed-policy verdicts. -/
theorem classifyPreprocessed_fixed (p : ContentPreprocessor.PreprocessedContent)
    (now : ℕ) (r : DetectionResult)
    (h : (EdgeCaseHandler.classifyPreprocessed p now).result = some r) :
    FixedPolicyVerdict r := by
  unfold EdgeCaseHandler.classifyPreprocessed at h
  simp only [] at h
  split_ifs at h <;>
  first
    | exact handleEmptyContent_fixed _ _ _ h
    | exact handleExtremeLength_fixed _ _ _ h
    | exact handleEncodingIssues_fixed _ _ _ h
    | exact handleObfuscation_fixed _ _ _ h
    | exact handleNonEnglishContent_fixed _ _ _ h
    | exact handleSpecialCharacters_fixed _ _ _ h
    | exact handleContextualEdgeCases_fixed _ _ _ h
    | simp at h

/-- C7: every verdict produced by an edge-case short-circuit carries the
fixed policy constants and nothing derived from rule signals:
confidence 0.8 always, overallScore 0.9 for reject, 0.5 for flag and
0.3 otherwise (the decision is never allow, so "otherwise" is
under_review). -/
theorem C7_short_circuit_fixed_constants (content : JsText) (now : ℕ)
    (r : DetectionResult)
    (hh : (EdgeCaseHandler.handleEdgeCase content now).handled = true)
    (hr : (EdgeCaseHandler.handleEdgeCase content now).result = some r) :
    r.confidence = 0.8 ∧ r.decision ≠ .allow ∧
    r.overallScore =
      (if r.decision = .reject then 0.9
       else if r.decision = .flag then 0.5 else 0.3) := by
  unfold EdgeCaseHandler.handleEdgeCase at hr
  split_ifs at hr
  · simp only [Option.some.injEq] at hr
    subst hr
    exact fixedPolicy_create _ _ _ _ _ (by decide)
  · exact classifyPreprocessed_fixed _ _ _ hr

/-- C7 (witness): the short verdict for the concrete input "hi". -/
theorem C7_short_circuit_witness :
    (EdgeCaseHandler.createShortContentResult "hi".toList 5).confidence = 0.8 ∧
    (EdgeCaseHandler.createShortContentResult "hi".toList 5).decision ≠ .allow ∧
    (EdgeCaseHandler.createShortContentResult "hi".toList 5).overallScore =
      (if (EdgeCaseHandler.createShortContentResult "hi".toList 5).decision = .reject
       then 0.9
       else if (EdgeCaseHandler.createShortContentResult "hi".toList 5).decision = .flag
       then 0.5 else 0.3) :=
  C7_short_circuit_fixed_constants "hi".toList 5
    (EdgeCaseHandler.createShortContentResult "hi".toList 5) (by decide) (by rfl)

/-- The five-word unknown-language input of the C9 counterexample. -/
def s9c : JsText := "asdf qwer zxcv tyui ghjk".toList

/-- The metadata `preprocess` computes for `s9c`. -/
def m9c : ContentPreprocessor.ContentMetadata :=
  { hasEmojis := false, hasUrls := false, hasHashtags := false, hasMentions := false,
    wordCount := 5, characterCount := 24, language := "unknown", encoding := "utf-8" }

/-- Preprocessing the counterexample input changes nothing. -/
theorem preprocess_s9c : ContentPreprocessor.preprocess s9c = ⟨s9c, s9c, m9c⟩ := by
  decide

/-- The encoding predicate does not fire on the counterexample input. -/
theorem s9c_encoding_unhandled :
    (EdgeCaseHandler.handleEncodingIssues ⟨s9c, s9c, m9c⟩ 0).handled = false := by
  have hc : (s9c.countP EdgeCaseHandler.isUnicodeIssue) = 0 := by decide
  have hlen : s9c.length = 24 := by decide
  simp only [EdgeCaseHandler.handleEncodingIssues, hc, hlen]
  norm_num [EdgeCaseHandler.notHandled]

/-- The obfuscation predicate does not fire on the counterexample
input. -/
theorem s9c_obfuscation_unhandled :
    (EdgeCaseHandler.handleObfuscation ⟨s9c, s9c, m9c⟩ 0).handled = false := by
  have hz : (s9c.countP ContentPreprocessor.isZeroWidth) = 0 := by decide
  have hh : EdgeCaseHandler.homographTest s9c = false := by decide
  have hs : (s9c.countP EdgeCaseHandler.isSubstitutionSymbol) = 0 := by decide
  have hl : (s9c.countP isAsciiLetter) = 20 := by decide
  simp only [EdgeCaseHandler.handleObfuscation, hz, hh, hs, hl]
  norm_num [EdgeCaseHandler.notHandled]

/-- The special-character predicate does not fire on the counterexample
input (24 characters is not more than 50). -/
theorem s9c_specialchars_unhandled :
    (EdgeCaseHandler.handleSpecialCharacters ⟨s9c, s9c, m9c⟩ 0).handled = false := by
  have hlen : s9c.length = 24 := by decide
  simp only [EdgeCaseHandler.handleSpecialCharacters, hlen]
  norm_num [EdgeCaseHandler.notHandled]

/-- C9 (counterexample): a normalized content whose language is unknown
and whose word count is exactly 5 (within the claim's "5 to 19
inclusive"), with no earlier predicate matching — yet the classifier does
not short-circuit, because the code requires `wordCount > 5`. -/
theorem C9_five_words_not_flagged :
    (ContentPreprocessor.preprocess s9c).metadata.language = "unknown" ∧
    (ContentPreprocessor.preprocess s9c).metadata.wordCount = 5 ∧
    (EdgeCaseHandler.handleEmptyContent (ContentPreprocessor.preprocess s9c) 0).handled
      = false ∧
    (EdgeCaseHandler.handleExtremeLength (ContentPreprocessor.preprocess s9c) 0).handled
      = false ∧
    (EdgeCaseHandler.handleEncodingIssues (ContentPreprocessor.preprocess s9c) 0).handled
      = false ∧
    (EdgeCaseHandler.handleObfuscation (ContentPreprocessor.preprocess s9c) 0).handled
      = false ∧
    (EdgeCaseHandler.classifyPreprocessed (ContentPreprocessor.preprocess s9c) 0).handled
      = false ∧
    (EdgeCaseHandler.handleEdgeCase s9c 0).handled = false := by
  rw [preprocess_s9c]
  have h1 : (EdgeCaseHandler.handleEmptyContent ⟨s9c, s9c, m9c⟩ 0).handled = false := by
    decide
  have h2 : (EdgeCaseHandler.handleExtremeLength ⟨s9c, s9c, m9c⟩ 0).handled = false := by
    decide
  have h5 : (EdgeCaseHandler.handleNonEnglishContent ⟨s9c, s9c, m9c⟩ 0).handled
      = false := by decide
  have h7 : (EdgeCaseHandler.handleContextualEdgeCases ⟨s9c, s9c, m9c⟩ 0).handled
      = false := by decide
  have hcl : (EdgeCaseHandler.classifyPreprocessed ⟨s9c, s9c, m9c⟩ 0).handled = false := by
    unfold EdgeCaseHandler.classifyPreprocessed
    simp only [h1, h2, s9c_encoding_unhandled, s9c_obfuscation_unhandled, h5,
      s9c_specialchars_unhandled, h7, Bool.false_eq_true, if_false]
  refine ⟨by decide, by decide, h1, h2, s9c_encoding_unhandled,
    s9c_obfuscation_unhandled, hcl, ?_⟩
  unfold EdgeCaseHandler.handleEdgeCase
  rw [if_neg (by decide)]
  rw [preprocess_s9c]
  exact hcl

/-- C9 (amended): for every normalized content whose detected language is
unknown and whose word count is between 6 and 19 inclusive (the code
requires strictly more than 5 words), with no earlier edge-case predicate
matching, the classifier short-circuits with recommended action flag via
the language predicate. -/
theorem C9_unknown_language_amended (p : ContentPreprocessor.PreprocessedContent)
    (now : ℕ)
    (h1 : (EdgeCaseHandler.handleEmptyContent p now).handled = false)
    (h2 : (EdgeCaseHandler.handleExtremeLength p now).handled = false)
    (h3 : (EdgeCaseHandler.handleEncodingIssues p now).handled = false)
    (h4 : (EdgeCaseHandler.handleObfuscation p now).handled = false)
    (hl : p.metadata.language = "unknown")
    (hw1 : 6 ≤ p.metadata.wordCount) (hw2 : p.metadata.wordCount ≤ 19) :
    (EdgeCaseHandler.classifyPreprocessed p now).handled = true ∧
    (EdgeCaseHandler.classifyPreprocessed p now).recommendedAction = .flag ∧
    (EdgeCaseHandler.classifyPreprocessed p now) =
      EdgeCaseHandler.handleNonEnglishContent p now := by
  have h5 : EdgeCaseHandler.handleNonEnglishContent p now =
      { handled := true, reason := "Unknown language with suspicious length",
        result := some (EdgeCaseHandler.createLanguageResult p.original now),
        recommendedAction := .flag } := by
    unfold EdgeCaseHandler.handleNonEnglishContent
    rw [if_pos ⟨hl, by omega, by omega⟩]
  unfold EdgeCaseHandler.classifyPreprocessed
  simp only [h1, h2, h3, h4, h5, Bool.false_eq_true, if_false, if_true]
  exact ⟨trivial, trivial, trivial⟩

/-- The six-word unknown-language input of the C9 witness. -/
def s9w : JsText := "asdf qwer zxcv tyui ghjk bnml".toList

/-- The metadata `preprocess` computes for `s9w`. -/
def m9w : ContentPreprocessor.ContentMetadata :=
  { hasEmojis := false, hasUrls := false, hasHashtags := false, hasMentions := false,
    wordCount := 6, characterCount := 29, language := "unknown", encoding := "utf-8" }

/-- Preprocessing the witness input changes nothing. -/
theorem preprocess_s9w : ContentPreprocessor.preprocess s9w = ⟨s9w, s9w, m9w⟩ := by
  decide

/-- The encoding predicate does not fire on the witness input. -/
theorem s9w_encoding_unhandled :
    (EdgeCaseHandler.handleEncodingIssues ⟨s9w, s9w, m9w⟩ 0).handled = false := by
  have hc : (s9w.countP EdgeCaseHandler.isUnicodeIssue) = 0 := by decide
  have hlen : s9w.length = 29 := by decide
  simp only [EdgeCaseHandler.handleEncodingIssues, hc, hlen]
  norm_num [EdgeCaseHandler.notHandled]

/-- The obfuscation predicate does not fire on the witness input. -/
theorem s9w_obfuscation_unhandled :
    (EdgeCaseHandler.handleObfuscation ⟨s9w, s9w, m9w⟩ 0).handled = false := by
  have hz : (s9w.countP ContentPreprocessor.isZeroWidth) = 0 := by decide
  have hh : EdgeCaseHandler.homographTest s9w = false := by decide
  have hs : (s9w.countP EdgeCaseHandler.isSubstitutionSymbol) = 0 := by decide
  have hl : (s9w.countP isAsciiLetter) = 24 := by decide
  simp only [EdgeCaseHandler.handleObfuscation, hz, hh, hs, hl]
  norm_num [EdgeCaseHandler.notHandled]

/-- C9 (witness): a concrete six-word unknown-language content is
short-circuited with recommended action flag. -/
theorem C9_unknown_language_witness :
    (EdgeCaseHandler.classifyPreprocessed (ContentPreprocessor.preprocess s9w) 0).handled
      = true ∧
    (EdgeCaseHandler.classifyPreprocessed
      (ContentPreprocessor.preprocess s9w) 0).recommendedAction = .flag ∧
    (EdgeCaseHandler.classifyPreprocessed (ContentPreprocessor.preprocess s9w) 0) =
      EdgeCaseHandler.handleNonEnglishContent (ContentPreprocessor.preprocess s9w) 0 :=
  C9_unknown_language_amended (ContentPreprocessor.preprocess s9w) 0
    (by rw [preprocess_s9w]; decide)
    (by rw [preprocess_s9w]; decide)
    (by rw [preprocess_s9w]; exact s9w_encoding_unhandled)
    (by rw [preprocess_s9w]; exact s9w_obfuscation_unhandled)
    (by rw [preprocess_s9w]; decide)
    (by rw [preprocess_s9w]; decide)
    (by rw [preprocess_s9w]; decide)

/-- The pair-accumulator form of the eviction scan step. -/
def evictPairStep (now : ℕ) (b : String × ℚ) (p : String × CacheEntry) : String × ℚ :=
  let s := MemoryCache.evictionScore p.2 now
  if s < b.2 then (p.1, s) else b

/-- Once the eviction scan holds a candidate, it is a plain pair fold. -/
theorem evictFold_some (now : ℕ) :
    ∀ (l : List (String × CacheEntry)) (b : String × ℚ),
      (List.foldl
        (fun best p =>
          let s := MemoryCache.evictionScore p.2 now
          match best with
          | none => some (p.1, s)
          | some (bk, bs) => if s < bs then some (p.1, s) else some (bk, bs))
        (some b) l)
      = some (l.foldl (evictPairStep now) b) := by
  intro l
  induction l with
  | nil => intro b; rfl
  | cons p rest ih =>
    intro b
    rw [List.foldl_cons, List.foldl_cons]
    by_cases hc : MemoryCache.evictionScore p.2 now < b.2
    · simp only [evictPairStep, hc, if_true, if_pos hc]
      exact ih _
    · simp only [evictPairStep, hc, if_false, if_neg hc]
      rw [show (some (b.1, b.2) : Option (String × ℚ)) = some b by rw [Prod.mk.eta]]
      exact ih b

/-- On a non-empty map the eviction scan is the pair fold seeded with the
first entry. -/
theorem evictFold_eq (now : ℕ) (q : String × CacheEntry)
    (rest : List (String × CacheEntry)) :
    MemoryCache.evictFold now (q :: rest) =
      some (rest.foldl (evictPairStep now) (q.1, MemoryCache.evictionScore q.2 now)) := by
  unfold MemoryCache.evictFold
  rw [List.foldl_cons]
  exact evictFold_some now rest _

/-- The pair fold returns the seed (if no later score beats it strictly)
or the first entry attaining a score strictly below the seed and minimal
over the whole list, with earlier entries strictly larger. -/
theorem pairFold_firstMin (now : ℕ) :
    ∀ (l : List (String × CacheEntry)) (b : String × ℚ),
      (l.foldl (evictPairStep now) b = b ∧
        ∀ p ∈ l, b.2 ≤ MemoryCache.evictionScore p.2 now) ∨
      (∃ i, ∃ hi : i < l.length,
        l.foldl (evictPairStep now) b =
          ((l.get ⟨i, hi⟩).1, MemoryCache.evictionScore (l.get ⟨i, hi⟩).2 now) ∧
        MemoryCache.evictionScore (l.get ⟨i, hi⟩).2 now < b.2 ∧
        (∀ p ∈ l, MemoryCache.evictionScore (l.get ⟨i, hi⟩).2 now ≤
          MemoryCache.evictionScore p.2 now) ∧
        (∀ j, ∀ hj : j < l.length, j < i →
          MemoryCache.evictionScore (l.get ⟨i, hi⟩).2 now <
            MemoryCache.evictionScore (l.get ⟨j, hj⟩).2 now)) := by
  intro l
  induction l with
  | nil => intro b; exact Or.inl ⟨rfl, by intro p hp; cases hp⟩
  | cons q rest ih =>
    intro b
    rw [List.foldl_cons]
    by_cases hc : MemoryCache.evictionScore q.2 now < b.2
    · have hstep : evictPairStep now b q = (q.1, MemoryCache.evictionScore q.2 now) := by
        simp [evictPairStep, hc]
      rw [hstep]
      rcases ih (q.1, MemoryCache.evictionScore q.2 now) with ⟨heq, hall⟩ |
        ⟨i, hi, heq, hlt, hall, hstrict⟩
      · refine Or.inr ⟨0, Nat.succ_pos _, ?_, hc, ?_, ?_⟩
        · simpa using heq
        · intro p hp
          rcases List.mem_cons.1 hp with rfl | hp
          · exact le_refl _
          · simpa using hall p hp
        · intro j hj hj0; omega
      · refine Or.inr ⟨i + 1, Nat.succ_lt_succ hi, ?_, ?_, ?_, ?_⟩
        · simpa using heq
        · exact lt_trans hlt hc
        · intro p hp
          rcases List.mem_cons.1 hp with rfl | hp
          · exact le_of_lt (by simpa using hlt)
          · simpa using hall p hp
        · intro j hj hji
          cases j with
          | zero => simpa using hlt
          | succ j' =>
            have : j' < i := by omega
            simpa using hstrict j' (by omega) this
    · have hstep : evictPairStep now b q = b := by
        simp [evictPairStep, hc]
      rw [hstep]
      have hqb : b.2 ≤ MemoryCache.evictionScore q.2 now := le_of_not_lt hc
      rcases ih b with ⟨heq, hall⟩ | ⟨i, hi, heq, hlt, hall, hstrict⟩
      · refine Or.inl ⟨heq, ?_⟩
        intro p hp
        rcases List.mem_cons.1 hp with rfl | hp
        · exact hqb
        · exact hall p hp
      · refine Or.inr ⟨i + 1, Nat.succ_lt_succ hi, ?_, ?_, ?_, ?_⟩
        · simpa using heq
        · simpa using hlt
        · intro p hp
          rcases List.mem_cons.1 hp with rfl | hp
          · exact le_of_lt (lt_of_lt_of_le (by simpa using hlt) hqb)
          · simpa using hall p hp
        · intro j hj hji
          cases j with
          | zero => simpa using lt_of_lt_of_le (by simpa using hlt) hqb
          | succ j' =>
            have : j' < i := by omega
            simpa using hstrict j' (by omega) this

/-- The eviction scan of a non-empty map selects the first entry
attaining the minimal eviction score. -/
theorem evictFold_spec (now : ℕ) (l : List (String × CacheEntry)) (hne : l ≠ []) :
    ∃ i, ∃ hi : i < l.length,
      MemoryCache.evictFold now l =
        some ((l.get ⟨i, hi⟩).1, MemoryCache.evictionScore (l.get ⟨i, hi⟩).2 now) ∧
      (∀ p ∈ l, MemoryCache.evictionScore (l.get ⟨i, hi⟩).2 now ≤
        MemoryCache.evictionScore p.2 now) ∧
      (∀ j, ∀ hj : j < l.length, j < i →
        MemoryCache.evictionScore (l.get ⟨i, hi⟩).2 now <
          MemoryCache.evictionScore (l.get ⟨j, hj⟩).2 now) := by
  cases l with
  | nil => exact absurd rfl hne
  | cons q rest =>
    rw [evictFold_eq]
    rcases pairFold_firstMin now rest (q.1, MemoryCache.evictionScore q.2 now) with
      ⟨heq, hall⟩ | ⟨i, hi, heq, hlt, hall, hstrict⟩
    · refine ⟨0, Nat.succ_pos _, ?_, ?_, ?_⟩
      · rw [heq]; rfl
      · intro p hp
        rcases List.mem_cons.1 hp with rfl | hp
        · exact le_refl _
        · simpa using hall p hp
      · intro j hj hj0; omega
    · refine ⟨i + 1, Nat.succ_lt_succ hi, ?_, ?_, ?_⟩
      · rw [heq]; simp
      · intro p hp
        rcases List.mem_cons.1 hp with rfl | hp
        · exact le_of_lt (by simpa using hlt)
        · simpa using hall p hp
      · intro j hj hji
        cases j with
        | zero => simpa using hlt
        | succ j' =>
          have : j' < i := by omega
          simpa using hstrict j' (by omega) this

/-- Erasing an absent key changes nothing. -/
theorem eraseKey_not_mem (k : String) (l : List (String × CacheEntry))
    (h : k ∉ l.map Prod.fst) : MemoryCache.eraseKey k l = l := by
  unfold MemoryCache.eraseKey
  apply List.filter_eq_self.2
  intro p hp
  simp only [decide_eq_true_eq]
  intro hk
  exact h (by rw [← hk]; exact List.mem_map_of_mem Prod.fst hp)

/-- With pairwise-distinct keys, erasing the key at one position removes
exactly one entry. -/
theorem eraseKey_length (l : List (String × CacheEntry))
    (hnd : (l.map Prod.fst).Nodup) :
    ∀ i, ∀ hi : i < l.length,
      (MemoryCache.eraseKey (l.get ⟨i, hi⟩).1 l).length + 1 = l.length := by
  induction l with
  | nil => intro i hi; simp at hi
  | cons p rest ih =>
    have hp : p.1 ∉ rest.map Prod.fst := (List.nodup_cons.1 hnd).1
    have hrest : (rest.map Prod.fst).Nodup := (List.nodup_cons.1 hnd).2
    intro i hi
    cases i with
    | zero =>
      show (MemoryCache.eraseKey p.1 (p :: rest)).length + 1 = rest.length + 1
      unfold MemoryCache.eraseKey
      rw [List.filter_cons]
      rw [if_neg (by simp)]
      have := eraseKey_not_mem p.1 rest hp
      unfold MemoryCache.eraseKey at this
      rw [this]
    | succ j =>
      have hj : j < rest.length := by simpa using hi
      have hk : (rest.get ⟨j, hj⟩).1 ∈ rest.map Prod.fst :=
        List.mem_map_of_mem Prod.fst (rest.get_mem _ _)
      have hne : (rest.get ⟨j, hj⟩).1 ≠ p.1 := fun he => hp (he ▸ hk)
      show (MemoryCache.eraseKey ((p :: rest).get ⟨j + 1, hi⟩).1 (p :: rest)).length + 1 =
        rest.length + 1
      have hget : ((p :: rest).get ⟨j + 1, hi⟩) = rest.get ⟨j, hj⟩ := rfl
      rw [hget]
      unfold MemoryCache.eraseKey
      rw [List.filter_cons]
      rw [if_pos (by simpa using fun he => hne he.symm)]
      have := ih hrest j hj
      unfold MemoryCache.eraseKey at this
      simp only [List.length_cons]
      omega

/-- Inserting a fresh key appends it at the end. -/
theorem setKey_append (k : String) (e : CacheEntry) :
    ∀ l : List (String × CacheEntry), List.lookup k l = none →
      MemoryCache.setKey k e l = l ++ [(k, e)] := by
  intro l
  induction l with
  | nil => intro _; rfl
  | cons p rest ih =>
    intro h
    rcases hkp : (k == p.1) with _ | _
    · have hlk : List.lookup k rest = none := by
        simpa [List.lookup, hkp] using h
      have hne : p.1 ≠ k := by
        intro he
        simp [he] at hkp
      unfold MemoryCache.setKey
      rw [if_neg hne, ih hlk]
      rfl
    · exfalso
      simp [List.lookup, hkp] at h
  
/-- Lookup failure is preserved by erasing any key. -/
theorem lookup_none_eraseKey (k v : String) :
    ∀ l : List (String × CacheEntry), List.lookup k l = none →
      List.lookup k (MemoryCache.eraseKey v l) = none := by
  intro l
  induction l with
  | nil => intro _; rfl
  | cons p rest ih =>
    intro h
    rcases hkp : (k == p.1) with _ | _
    · have hlk : List.lookup k rest = none := by
        simpa [List.lookup, hkp] using h
      unfold MemoryCache.eraseKey
      rw [List.filter_cons]
      by_cases hv : p.1 = v
      · rw [if_neg (by simp [hv])]
        exact ih hlk
      · rw [if_pos (by simpa using hv)]
        simp only [List.lookup, hkp]
        exact ih hlk
    · exfalso
      simp [List.lookup, hkp] at h

/-- A key that fails lookup is absent from the key list. -/
theorem lookup_none_not_mem (k : String) :
    ∀ l : List (String × CacheEntry), List.lookup k l = none →
      k ∉ l.map Prod.fst := by
  intro l
  induction l with
  | nil => intro _ h; simp at h
  | cons p rest ih =>
    intro h hmem
    rw [List.map_cons, List.mem_cons] at hmem
    rcases hkp : (k == p.1) with _ | _
    · have hlk : List.lookup k rest = none := by
        simpa [List.lookup, hkp] using h
      rcases hmem with he | hmem'
      · simp [he] at hkp
      · exact ih hlk hmem'
    · simp [List.lookup, hkp] at h

/-- Lookup failure is preserved when a different key is appended. -/
theorem lookup_none_append_single (k2 k : String) (e : CacheEntry) (hne : k2 ≠ k) :
    ∀ l : List (String × CacheEntry), List.lookup k2 l = none →
      List.lookup k2 (l ++ [(k, e)]) = none := by
  intro l
  induction l with
  | nil =>
    intro _
    rcases hkk : (k2 == k) with _ | _
    · simp [List.lookup, hkk]
    · exact absurd (by simpa using hkk) hne
  | cons p rest ih =>
    intro h
    rcases hkp : (k2 == p.1) with _ | _
    · have hlk : List.lookup k2 rest = none := by
        simpa [List.lookup, hkp] using h
      simpa [List.lookup, hkp] using ih hlk
    · simp [List.lookup, hkp] at h

/-- One `set` on a cache at capacity: the first minimal-score entry is
evicted and the fresh entry appended, leaving the size at capacity. -/
theorem set_at_capacity (c : MemoryCache) (now : ℕ) (k : String) (v : DetectionResult)
    (ttl : Option ℕ)
    (hlen : c.cache.length = c.maxEntries) (hm : 1 ≤ c.maxEntries)
    (hnd : (c.cache.map Prod.fst).Nodup) (hkeys : ∀ p ∈ c.cache, p.1 ≠ "")
    (hk : List.lookup k c.cache = none) :
    ∃ i, ∃ hi : i < c.cache.length,
      (∀ p ∈ c.cache, MemoryCache.evictionScore (c.cache.get ⟨i, hi⟩).2 now ≤
        MemoryCache.evictionScore p.2 now) ∧
      (∀ j, ∀ hj : j < c.cache.length, j < i →
        MemoryCache.evictionScore (c.cache.get ⟨i, hi⟩).2 now <
          MemoryCache.evictionScore (c.cache.get ⟨j, hj⟩).2 now) ∧
      (MemoryCache.set k v ttl now c).cache =
        MemoryCache.eraseKey (c.cache.get ⟨i, hi⟩).1 c.cache ++
          [(k, { value := v, timestamp := now, hits := 0,
                 ttl := MemoryCache.jsOrTtl ttl c.defaultTtl })] ∧
      (MemoryCache.set k v ttl now c).cache.length = c.maxEntries := by
  have hne : c.cache ≠ [] := by
    intro h
    rw [h] at hlen
    simp at hlen
    omega
  obtain ⟨i, hi, hfold, hmin, hstrict⟩ := evictFold_spec now c.cache hne
  have hvk : (c.cache.get ⟨i, hi⟩).1 ≠ "" := hkeys _ (c.cache.get_mem _ _)
  have hev : (MemoryCache.evictLeastRecentlyUsed now c).cache =
      MemoryCache.eraseKey (c.cache.get ⟨i, hi⟩).1 c.cache := by
    unfold MemoryCache.evictLeastRecentlyUsed
    rw [if_neg (by simpa [List.isEmpty_iff] using hne)]
    rw [hfold]
    dsimp only
    rw [if_neg hvk]
  have hset : (MemoryCache.set k v ttl now c).cache =
      MemoryCache.setKey k
        { value := v, timestamp := now, hits := 0,
          ttl := MemoryCache.jsOrTtl ttl c.defaultTtl }
        (MemoryCache.eraseKey (c.cache.get ⟨i, hi⟩).1 c.cache) := by
    unfold MemoryCache.set
    rw [if_pos (by omega)]
    dsimp only
    rw [hev]
  have happ : (MemoryCache.set k v ttl now c).cache =
      MemoryCache.eraseKey (c.cache.get ⟨i, hi⟩).1 c.cache ++
        [(k, { value := v, timestamp := now, hits := 0,
               ttl := MemoryCache.jsOrTtl ttl c.defaultTtl })] := by
    rw [hset]
    exact setKey_append _ _ _ (lookup_none_eraseKey _ _ _ hk)
  refine ⟨i, hi, hmin, hstrict, happ, ?_⟩
  rw [happ, List.length_append]
  have := eraseKey_length c.cache hnd i hi
  simp only [List.length_cons, List.length_nil]
  omega

/-- Eviction never changes the cache configuration. -/
theorem evictLRU_config (now : ℕ) (c : MemoryCache) :
    (MemoryCache.evictLeastRecentlyUsed now c).maxEntries = c.maxEntries ∧
    (MemoryCache.evictLeastRecentlyUsed now c).defaultTtl = c.defaultTtl := by
  unfold MemoryCache.evictLeastRecentlyUsed
  repeat' split
  all_goals exact ⟨rfl, rfl⟩

/-- `set` never changes the cache configuration. -/
theorem set_config (k : String) (v : DetectionResult) (ttl : Option ℕ) (now : ℕ)
    (c : MemoryCache) :
    (MemoryCache.set k v ttl now c).maxEntries = c.maxEntries ∧
    (MemoryCache.set k v ttl now c).defaultTtl = c.defaultTtl := by
  unfold MemoryCache.set
  split
  · exact evictLRU_config now c
  · exact ⟨rfl, rfl⟩

/-- One `set` of a fresh, non-empty key on a well-formed cache: the size
becomes `min (size + 1) maxEntries` and all structural invariants are
preserved. -/
theorem set_fresh_step (c : MemoryCache) (k : String) (v : DetectionResult)
    (ttl : Option ℕ) (now : ℕ)
    (hm : 1 ≤ c.maxEntries) (hk0 : k ≠ "")
    (hfresh : List.lookup k c.cache = none)
    (hnd : (c.cache.map Prod.fst).Nodup)
    (hkeys : ∀ p ∈ c.cache, p.1 ≠ "")
    (hlen : c.cache.length ≤ c.maxEntries) :
    (MemoryCache.set k v ttl now c).cache.length =
      min (c.cache.length + 1) c.maxEntries ∧
    ((MemoryCache.set k v ttl now c).cache.map Prod.fst).Nodup ∧
    (∀ p ∈ (MemoryCache.set k v ttl now c).cache, p.1 ≠ "") ∧
    (∀ k2, k2 ≠ k → List.lookup k2 c.cache = none →
      List.lookup k2 (MemoryCache.set k v ttl now c).cache = none) ∧
    (MemoryCache.set k v ttl now c).maxEntries = c.maxEntries ∧
    (MemoryCache.set k v ttl now c).defaultTtl = c.defaultTtl := by
  by_cases hcap : c.cache.length ≥ c.maxEntries
  · have hlen' : c.cache.length = c.maxEntries := le_antisymm hlen hcap
    obtain ⟨i, hi, _, _, happ, hsz⟩ :=
      set_at_capacity c now k v ttl hlen' hm hnd hkeys hfresh
    have herase : (MemoryCache.eraseKey (c.cache.get ⟨i, hi⟩).1 c.cache).Sublist c.cache :=
      List.filter_sublist _
    have hnd' : ((MemoryCache.eraseKey (c.cache.get ⟨i, hi⟩).1 c.cache).map
        Prod.fst).Nodup := (herase.map Prod.fst).nodup hnd
    have hknotin : k ∉ (MemoryCache.eraseKey (c.cache.get ⟨i, hi⟩).1 c.cache).map
        Prod.fst :=
      lookup_none_not_mem k _ (lookup_none_eraseKey _ _ _ hfresh)
    refine ⟨?_, ?_, ?_, ?_, ?_, ?_⟩
    · rw [hsz, hlen']
      omega
    · rw [happ, List.map_append]
      refine List.Nodup.append hnd' (by simp) ?_
      intro a ha hb
      simp only [List.map_cons, List.map_nil, List.mem_singleton] at hb
      subst hb
      exact hknotin ha
    · rw [happ]
      intro p hp
      rcases List.mem_append.1 hp with hp | hp
      · exact hkeys p (herase.mem hp)
      · rcases List.mem_singleton.1 hp with rfl
        exact hk0
    · intro k2 hk2 hnone
      rw [happ]
      exact lookup_none_append_single k2 k _ hk2 _ (lookup_none_eraseKey _ _ _ hnone)
    · exact (set_config k v ttl now c).1
    · exact (set_config k v ttl now c).2
  · have hnoev : (MemoryCache.set k v ttl now c).cache =
        c.cache ++ [(k, { value := v, timestamp := now, hits := 0,
                          ttl := MemoryCache.jsOrTtl ttl c.defaultTtl })] := by
      unfold MemoryCache.set
      rw [if_neg hcap]
      exact setKey_append _ _ _ hfresh
    have hknotin : k ∉ c.cache.map Prod.fst := lookup_none_not_mem k _ hfresh
    refine ⟨?_, ?_, ?_, ?_, ?_, ?_⟩
    · rw [hnoev, List.length_append]
      simp only [List.length_cons, List.length_nil]
      omega
    · rw [hnoev, List.map_append]
      refine List.Nodup.append hnd (by simp) ?_
      intro a ha hb
      simp only [List.map_cons, List.map_nil, List.mem_singleton] at hb
      subst hb
      exact hknotin ha
    · rw [hnoev]
      intro p hp
      rcases List.mem_append.1 hp with hp | hp
      · exact hkeys p hp
      · rcases List.mem_singleton.1 hp with rfl
        exact hk0
    · intro k2 hk2 hnone
      rw [hnoev]
      exact lookup_none_append_single k2 k _ hk2 _ hnone
    · exact (set_config k v ttl now c).1
    · exact (set_config k v ttl now c).2

/-- Inserting a list of verdict copies under the given keys, one `set`
per key. -/
def insertAll (v : DetectionResult) (now : ℕ) (keys : List String)
    (c : MemoryCache) : MemoryCache :=
  keys.foldl (fun cc k => MemoryCache.set k v none now cc) c

/-- Inserting distinct fresh non-empty keys grows the cache size up to
the capacity and no further. -/
theorem insertAll_length (v : DetectionResult) (now : ℕ) :
    ∀ (keys : List String) (c : MemoryCache),
      1 ≤ c.maxEntries →
      keys.Nodup → (∀ k ∈ keys, k ≠ "") →
      (∀ k ∈ keys, List.lookup k c.cache = none) →
      (c.cache.map Prod.fst).Nodup →
      (∀ p ∈ c.cache, p.1 ≠ "") →
      c.cache.length ≤ c.maxEntries →
      (insertAll v now keys c).cache.length =
        min (c.cache.length + keys.length) c.maxEntries := by
  intro keys
  induction keys with
  | nil =>
    intro c hm _ _ _ _ _ hlen
    simp only [insertAll, List.foldl_nil, List.length_nil]
    omega
  | cons k keys ih =>
    intro c hm hnodup hne hfresh hcnd hckeys hclen
    have hk0 : k ≠ "" := hne k (List.mem_cons_self _ _)
    have hkfresh : List.lookup k c.cache = none := hfresh k (List.mem_cons_self _ _)
    obtain ⟨hlen1, hnd1, hkeys1, hpres1, hmax1, _⟩ :=
      set_fresh_step c k v none now hm hk0 hkfresh hcnd hckeys hclen
    have hstep : insertAll v now (k :: keys) c =
        insertAll v now keys (MemoryCache.set k v none now c) := rfl
    rw [hstep]
    have htail := ih (MemoryCache.set k v none now c)
      (by rw [hmax1]; exact hm)
      (List.nodup_cons.1 hnodup).2
      (fun k2 hk2 => hne k2 (List.mem_cons_of_mem _ hk2))
      (fun k2 hk2 => hpres1 k2
        (fun he => (List.nodup_cons.1 hnodup).1 (he ▸ hk2))
        (hfresh k2 (List.mem_cons_of_mem _ hk2)))
      hnd1 hkeys1
      (by rw [hlen1, hmax1]; omega)
    rw [htail, hlen1, hmax1]
    simp only [List.length_cons]
    omega

/-- C5: at capacity, `set` of a new fingerprint first evicts exactly the
first-encountered entry with the lowest score
`hits / max(ageHours, 0.1)` and then inserts, leaving the size at
capacity; consequently inserting capacity+1 distinct (non-empty)
fingerprints into a cache with `maxEntries = N ≥ 1` leaves exactly `N`
entries. -/
theorem C5_capacity_eviction :
    (∀ (c : MemoryCache) (now : ℕ) (k : String) (v : DetectionResult) (ttl : Option ℕ),
      c.cache.length = c.maxEntries → 1 ≤ c.maxEntries →
      (c.cache.map Prod.fst).Nodup → (∀ p ∈ c.cache, p.1 ≠ "") →
      List.lookup k c.cache = none →
      ∃ i, ∃ hi : i < c.cache.length,
        (∀ p ∈ c.cache, MemoryCache.evictionScore (c.cache.get ⟨i, hi⟩).2 now ≤
          MemoryCache.evictionScore p.2 now) ∧
        (∀ j, ∀ hj : j < c.cache.length, j < i →
          MemoryCache.evictionScore (c.cache.get ⟨i, hi⟩).2 now <
            MemoryCache.evictionScore (c.cache.get ⟨j, hj⟩).2 now) ∧
        (MemoryCache.set k v ttl now c).cache =
          MemoryCache.eraseKey (c.cache.get ⟨i, hi⟩).1 c.cache ++
            [(k, { value := v, timestamp := now, hits := 0,
                   ttl := MemoryCache.jsOrTtl ttl c.defaultTtl })] ∧
        (MemoryCache.set k v ttl now c).cache.length = c.maxEntries) ∧
    (∀ (N : ℕ) (keys : List String) (v : DetectionResult) (ttlD now : ℕ),
      1 ≤ N → keys.Nodup → (∀ k ∈ keys, k ≠ "") → keys.length = N + 1 →
      (insertAll v now keys (MemoryCache.init N ttlD)).cache.length = N) := by
  constructor
  · intro c now k v ttl h1 h2 h3 h4 h5
    exact set_at_capacity c now k v ttl h1 h2 h3 h4 h5
  · intro N keys v ttlD now hm hnd hne hlen
    have hins := insertAll_length v now keys (MemoryCache.init N ttlD)
      hm hnd hne (fun k _ => rfl) (by simp [MemoryCache.init])
      (fun p hp => absurd hp (List.not_mem_nil p)) (by simp [MemoryCache.init])
    rw [hins, hlen]
    simp only [MemoryCache.init, List.length_nil]
    omega

/-- The first concrete entry of the C5 witness cache (zero hits). -/
def c5eA : CacheEntry := { value := c6v, timestamp := 0, hits := 0, ttl := 10 }

/-- The second concrete entry of the C5 witness cache (five hits). -/
def c5eB : CacheEntry := { value := c6v, timestamp := 0, hits := 5, ttl := 10 }

/-- A concrete cache at capacity 2 for the C5 witness. -/
def c5cache : MemoryCache :=
  { cache := [("a", c5eA), ("b", c5eB)], hits := 0, misses := 0,
    maxEntries := 2, defaultTtl := 10 }

/-- C5 (witness): the eviction-and-insert behaviour at the concrete
two-entry cache, and inserting three distinct fingerprints into a
two-entry cache. -/
theorem C5_capacity_witness :
    (∃ i, ∃ hi : i < c5cache.cache.length,
      (∀ p ∈ c5cache.cache,
        MemoryCache.evictionScore (c5cache.cache.get ⟨i, hi⟩).2 3600000 ≤
          MemoryCache.evictionScore p.2 3600000) ∧
      (∀ j, ∀ hj : j < c5cache.cache.length, j < i →
        MemoryCache.evictionScore (c5cache.cache.get ⟨i, hi⟩).2 3600000 <
          MemoryCache.evictionScore (c5cache.cache.get ⟨j, hj⟩).2 3600000) ∧
      (MemoryCache.set "c" c6v none 3600000 c5cache).cache =
        MemoryCache.eraseKey (c5cache.cache.get ⟨i, hi⟩).1 c5cache.cache ++
          [("c", { value := c6v, timestamp := 3600000, hits := 0,
                   ttl := MemoryCache.jsOrTtl none c5cache.defaultTtl })] ∧
      (MemoryCache.set "c" c6v none 3600000 c5cache).cache.length =
        c5cache.maxEntries) ∧
    (insertAll c6v 0 ["a", "b", "c"] (MemoryCache.init 2 10)).cache.length = 2 :=
  ⟨C5_capacity_eviction.1 c5cache 3600000 "c" c6v none (by decide) (by decide)
      (by decide) (by decide) (by decide),
   C5_capacity_eviction.2 2 ["a", "b", "c"] c6v 10 0 (by decide) (by decide)
      (by decide) (by decide)⟩

/-- Whether a predicate fires does not depend on the clock (the timestamp
only enters the verdict payloads). -/
theorem handlers_handled_const (p : ContentPreprocessor.PreprocessedContent)
    (n m : ℕ) :
    (EdgeCaseHandler.handleEmptyContent p n).handled =
      (EdgeCaseHandler.handleEmptyContent p m).handled ∧
    (EdgeCaseHandler.handleExtremeLength p n).handled =
      (EdgeCaseHandler.handleExtremeLength p m).handled ∧
    (EdgeCaseHandler.handleEncodingIssues p n).handled =
      (EdgeCaseHandler.handleEncodingIssues p m).handled ∧
    (EdgeCaseHandler.handleObfuscation p n).handled =
      (EdgeCaseHandler.handleObfuscation p m).handled ∧
    (EdgeCaseHandler.handleNonEnglishContent p n).handled =
      (EdgeCaseHandler.handleNonEnglishContent p m).handled ∧
    (EdgeCaseHandler.handleSpecialCharacters p n).handled =
      (EdgeCaseHandler.handleSpecialCharacters p m).handled ∧
    (EdgeCaseHandler.handleContextualEdgeCases p n).handled =
      (EdgeCaseHandler.handleContextualEdgeCases p m).handled := by
  refine ⟨?_, ?_, ?_, ?_, ?_, ?_, ?_⟩
  · unfold EdgeCaseHandler.handleEmptyContent
    split_ifs <;> rfl
  · unfold EdgeCaseHandler.handleExtremeLength
    split_ifs <;> rfl
  · unfold EdgeCaseHandler.handleEncodingIssues
    dsimp only
    split_ifs <;> rfl
  · unfold EdgeCaseHandler.handleObfuscation
    dsimp only
    split_ifs <;> rfl
  · unfold EdgeCaseHandler.handleNonEnglishContent
    split_ifs <;> rfl
  · unfold EdgeCaseHandler.handleSpecialCharacters
    dsimp only
    split_ifs <;> rfl
  · unfold EdgeCaseHandler.handleContextualEdgeCases
    dsimp only
    split_ifs <;> rfl

/-- A non-short-circuit outcome is the same "no edge cases" record at
every clock value. -/
theorem classify_unhandled (p : ContentPreprocessor.PreprocessedContent)
    (now now' : ℕ)
    (h : (EdgeCaseHandler.classifyPreprocessed p now).handled = false) :
    EdgeCaseHandler.classifyPreprocessed p now' =
      { handled := false, reason := "No edge cases detected", result := none,
        recommendedAction := .allow } := by
  obtain ⟨e1, e2, e3, e4, e5, e6, e7⟩ := handlers_handled_const p now' now
  unfold EdgeCaseHandler.classifyPreprocessed at h ⊢
  simp only [] at h ⊢
  rw [e1, e2, e3, e4, e5, e6, e7]
  split_ifs at h ⊢ <;> simp_all

/-- A non-short-circuited input is non-short-circuited at every clock
value, with the fixed "no edge cases" outcome. -/
theorem handleEdgeCase_unhandled (content : JsText) (now now' : ℕ)
    (h : (EdgeCaseHandler.handleEdgeCase content now).handled = false) :
    EdgeCaseHandler.handleEdgeCase content now' =
      { handled := false, reason := "No edge cases detected", result := none,
        recommendedAction := .allow } := by
  unfold EdgeCaseHandler.handleEdgeCase at h ⊢
  split_ifs at h ⊢ <;> simp_all
  exact classify_unhandled _ now now' h

/-- `get` on an absent key. -/
theorem get_eq_miss_none (k : String) (now : ℕ) (c : MemoryCache)
    (h : List.lookup k c.cache = none) :
    MemoryCache.get k now c = (none, { c with misses := c.misses + 1 }) := by
  unfold MemoryCache.get
  rw [h]

/-- `get` on an expired entry. -/
theorem get_eq_miss_expired (k : String) (now : ℕ) (c : MemoryCache) (e : CacheEntry)
    (h : List.lookup k c.cache = some e) (hx : MemoryCache.expiredAt e now = true) :
    MemoryCache.get k now c =
      (none, { c with cache := MemoryCache.eraseKey k c.cache
                      misses := c.misses + 1 }) := by
  unfold MemoryCache.get
  rw [h]
  dsimp only
  rw [if_pos hx]

/-- `get` on a live entry. -/
theorem get_eq_hit (k : String) (now : ℕ) (c : MemoryCache) (e : CacheEntry)
    (h : List.lookup k c.cache = some e) (hx : MemoryCache.expiredAt e now = false) :
    MemoryCache.get k now c =
      (some e.value,
       { c with hits := c.hits + 1
                cache := MemoryCache.setKey k { e with hits := e.hits + 1 } c.cache }) := by
  unfold MemoryCache.get
  rw [h]
  dsimp only
  rw [if_neg (by simp [hx])]

/-- The cache-hit branch of the enhanced service's main path. -/
theorem analyzeMain_hit (rules : List DetectionRule) (digest : JsText → String)
    (content : JsText) (now : ℕ) (pt : ℚ) (st : EnhancedState)
    (cached : DetectionResult) (cache1 : MemoryCache)
    (h : MemoryCache.get (createContentHash digest content) now st.cache =
      (some cached, cache1)) :
    EnhancedSpamDetectionService.analyzeContent.analyzeMain rules digest content now pt st =
      ({ cached with processingTime := pt },
       { cache := cache1, monitor := st.monitor.recordCacheHit }) := by
  unfold EnhancedSpamDetectionService.analyzeContent.analyzeMain
  simp only []
  rw [h]

/-- The cache-miss branch of the enhanced service's main path. -/
theorem analyzeMain_miss (rules : List DetectionRule) (digest : JsText → String)
    (content : JsText) (now : ℕ) (pt : ℚ) (st : EnhancedState) (cache1 : MemoryCache)
    (h : MemoryCache.get (createContentHash digest content) now st.cache =
      (none, cache1)) :
    EnhancedSpamDetectionService.analyzeContent.analyzeMain rules digest content now pt st =
      ({ SpamDetectionEngine.analyzeContent rules digest content pt with
           processingTime := pt },
       { cache := MemoryCache.set (createContentHash digest content)
           (SpamDetectionEngine.analyzeContent rules digest content pt) none now cache1,
         monitor := (st.monitor.recordCacheMiss).recordProcessingTime pt }) := by
  unfold EnhancedSpamDetectionService.analyzeContent.analyzeMain
  simp only []
  rw [h]

/-- For a non-blank, non-short-circuited input the enhanced service runs
its main (cache + engine) path. -/
theorem enhanced_unhandled_eq (rules : List DetectionRule) (digest : JsText → String)
    (content : JsText) (now : ℕ) (pt : ℚ) (st : EnhancedState)
    (hblank : jsTrim content ≠ [])
    (hedge : (EdgeCaseHandler.handleEdgeCase content now).handled = false) :
    EnhancedSpamDetectionService.analyzeContent rules digest content now pt st =
      EnhancedSpamDetectionService.analyzeContent.analyzeMain rules digest content
        now pt st := by
  unfold EnhancedSpamDetectionService.analyzeContent
  rw [if_neg (by simpa [List.isEmpty_iff] using hblank)]
  rw [handleEdgeCase_unhandled content now now hedge]

/-- C4 (amended): for every non-empty text that the edge-case classifier
does not short-circuit, two successive analyze calls yield the same
fingerprint, and — absent expiry of the cached entry between the calls —
the same decision and overallScore, the second (cache-served) verdict
differing from the first in no field other than its processing time.
(For short-circuited inputs the fingerprint is a timestamp-based
placeholder that differs across calls; see the counterexample.) -/
theorem C4_amended_idempotence
    (rules : List DetectionRule) (digest : JsText → String) (content : JsText)
    (now1 now2 : ℕ) (pt1 pt2 : ℚ) (st : EnhancedState)
    (hblank : jsTrim content ≠ [])
    (hedge : (EdgeCaseHandler.handleEdgeCase content now1).handled = false)
    (hlive : ∀ e, List.lookup (createContentHash digest content) st.cache.cache = some e →
      MemoryCache.expiredAt e now2 = false)
    (hspan : now2 ≤ now1 + st.cache.defaultTtl) :
    ∃ v1 s1 v2 s2,
      EnhancedSpamDetectionService.analyzeContent rules digest content now1 pt1 st
        = (v1, s1) ∧
      EnhancedSpamDetectionService.analyzeContent rules digest content now2 pt2 s1
        = (v2, s2) ∧
      v2 = { v1 with processingTime := pt2 } ∧
      v1.contentHash = v2.contentHash ∧
      v1.decision = v2.decision ∧
      v1.overallScore = v2.overallScore := by
  have hedge2 : (EdgeCaseHandler.handleEdgeCase content now2).handled = false := by
    rw [handleEdgeCase_unhandled content now1 now2 hedge]
  rcases hlk : List.lookup (createContentHash digest content) st.cache.cache with _ | e
  · -- first call misses the cache and stores the engine verdict
    have hc1 := (enhanced_unhandled_eq rules digest content now1 pt1 st hblank
        hedge).trans
      (analyzeMain_miss rules digest content now1 pt1 st _
        (get_eq_miss_none _ now1 st.cache hlk))
    have hlk2 : List.lookup (createContentHash digest content)
        (MemoryCache.set (createContentHash digest content)
          (SpamDetectionEngine.analyzeContent rules digest content pt1) none now1
          { st.cache with misses := st.cache.misses + 1 }).cache =
        some { value := SpamDetectionEngine.analyzeContent rules digest content pt1,
               timestamp := now1, hits := 0,
               ttl := MemoryCache.jsOrTtl none st.cache.defaultTtl } := by
      unfold MemoryCache.set
      dsimp only
      exact lookup_setKey _ _ _
    have hxp : MemoryCache.expiredAt
        { value := SpamDetectionEngine.analyzeContent rules digest content pt1,
          timestamp := now1, hits := 0,
          ttl := MemoryCache.jsOrTtl none st.cache.defaultTtl } now2 = false := by
      simp only [MemoryCache.expiredAt, MemoryCache.jsOrTtl,
        decide_eq_false_iff_not, not_and, not_lt]
      intro _
      exact hspan
    have hc2 := (enhanced_unhandled_eq rules digest content now2 pt2
        { cache := MemoryCache.set (createContentHash digest content)
            (SpamDetectionEngine.analyzeContent rules digest content pt1) none now1
            { st.cache with misses := st.cache.misses + 1 }
          monitor := (st.monitor.recordCacheMiss).recordProcessingTime pt1 }
        hblank hedge2).trans
      (analyzeMain_hit rules digest content now2 pt2
        { cache := MemoryCache.set (createContentHash digest content)
            (SpamDetectionEngine.analyzeContent rules digest content pt1) none now1
            { st.cache with misses := st.cache.misses + 1 }
          monitor := (st.monitor.recordCacheMiss).recordProcessingTime pt1 } _ _
        (get_eq_hit _ now2 _ _ hlk2 hxp))
    exact ⟨_, _, _, _, hc1, hc2, rfl, rfl, rfl, rfl⟩
  · by_cases hex : MemoryCache.expiredAt e now1 = true
    · -- first call finds the entry expired, deletes it and recomputes
      have hc1 := (enhanced_unhandled_eq rules digest content now1 pt1 st hblank
          hedge).trans
        (analyzeMain_miss rules digest content now1 pt1 st _
          (get_eq_miss_expired _ now1 st.cache e hlk hex))
      have hlk2 : List.lookup (createContentHash digest content)
          (MemoryCache.set (createContentHash digest content)
            (SpamDetectionEngine.analyzeContent rules digest content pt1) none now1
            { st.cache with
              cache := MemoryCache.eraseKey (createContentHash digest content)
                st.cache.cache
              misses := st.cache.misses + 1 }).cache =
          some { value := SpamDetectionEngine.analyzeContent rules digest content pt1,
                 timestamp := now1, hits := 0,
                 ttl := MemoryCache.jsOrTtl none st.cache.defaultTtl } := by
        unfold MemoryCache.set
        dsimp only
        exact lookup_setKey _ _ _
      have hxp : MemoryCache.expiredAt
          { value := SpamDetectionEngine.analyzeContent rules digest content pt1,
            timestamp := now1, hits := 0,
            ttl := MemoryCache.jsOrTtl none st.cache.defaultTtl } now2 = false := by
        simp only [MemoryCache.expiredAt, MemoryCache.jsOrTtl,
          decide_eq_false_iff_not, not_and, not_lt]
        intro _
        exact hspan
      have hc2 := (enhanced_unhandled_eq rules digest content now2 pt2
          { cache := MemoryCache.set (createContentHash digest content)
              (SpamDetectionEngine.analyzeContent rules digest content pt1) none now1
              { st.cache with
                cache := MemoryCache.eraseKey (createContentHash digest content)
                  st.cache.cache
                misses := st.cache.misses + 1 }
            monitor := (st.monitor.recordCacheMiss).recordProcessingTime pt1 }
          hblank hedge2).trans
        (analyzeMain_hit rules digest content now2 pt2
          { cache := MemoryCache.set (createContentHash digest content)
              (SpamDetectionEngine.analyzeContent rules digest content pt1) none now1
              { st.cache with
                cache := MemoryCache.eraseKey (createContentHash digest content)
                  st.cache.cache
                misses := st.cache.misses + 1 }
            monitor := (st.monitor.recordCacheMiss).recordProcessingTime pt1 } _ _
          (get_eq_hit _ now2 _ _ hlk2 hxp))
      exact ⟨_, _, _, _, hc1, hc2, rfl, rfl, rfl, rfl⟩
    · -- first call is itself a cache hit
      have hex1 : MemoryCache.expiredAt e now1 = false := by
        simpa using hex
      have hc1 := (enhanced_unhandled_eq rules digest content now1 pt1 st hblank
          hedge).trans
        (analyzeMain_hit rules digest content now1 pt1 st _ _
          (get_eq_hit _ now1 st.cache e hlk hex1))
      have hlk2 : List.lookup (createContentHash digest content)
          { st.cache with
            hits := st.cache.hits + 1
            cache := MemoryCache.setKey (createContentHash digest content)
              { e with hits := e.hits + 1 } st.cache.cache }.cache =
          some { e with hits := e.hits + 1 } := lookup_setKey _ _ _
      have hxp : MemoryCache.expiredAt { e with hits := e.hits + 1 } now2 = false :=
        hlive e hlk
      have hc2 := (enhanced_unhandled_eq rules digest content now2 pt2
          { cache := { st.cache with
              hits := st.cache.hits + 1
              cache := MemoryCache.setKey (createContentHash digest content)
                { e with hits := e.hits + 1 } st.cache.cache }
            monitor := st.monitor.recordCacheHit }
          hblank hedge2).trans
        (analyzeMain_hit rules digest content now2 pt2
          { cache := { st.cache with
              hits := st.cache.hits + 1
              cache := MemoryCache.setKey (createContentHash digest content)
                { e with hits := e.hits + 1 } st.cache.cache }
            monitor := st.monitor.recordCacheHit } _ _
          (get_eq_hit _ now2 _ _ hlk2 hxp))
      exact ⟨_, _, _, _, hc1, hc2, rfl, rfl, rfl, rfl⟩

/-- C4 (counterexample): calling the enhanced analyze twice on the
identical non-empty text "hi" — short-circuited by the extreme-length
edge case — returns verdicts whose fingerprints differ, because the
short-circuit fingerprint is the timestamp-based placeholder
`edge_case_${Date.now()}` (here times 1000 and 2000). -/
theorem C4_fingerprint_counterexample :
    (EnhancedSpamDetectionService.analyzeContent [] (fun _ => "h") "hi".toList 2000 1
       (EnhancedSpamDetectionService.analyzeContent [] (fun _ => "h") "hi".toList 1000 1
         ⟨MemoryCache.init 10000 3600000, PerformanceMonitor.init⟩).2).1.contentHash ≠
    (EnhancedSpamDetectionService.analyzeContent [] (fun _ => "h") "hi".toList 1000 1
       ⟨MemoryCache.init 10000 3600000, PerformanceMonitor.init⟩).1.contentHash := by
  decide

/-- The nine-word English input of the C4 witness. -/
def c4w : JsText := "the cat and the dog sat on the mat".toList

/-- The metadata `preprocess` computes for `c4w`. -/
def m4w : ContentPreprocessor.ContentMetadata :=
  { hasEmojis := false, hasUrls := false, hasHashtags := false, hasMentions := false,
    wordCount := 9, characterCount := 34, language := "en", encoding := "utf-8" }

/-- Preprocessing the C4 witness input changes nothing. -/
theorem preprocess_c4w : ContentPreprocessor.preprocess c4w = ⟨c4w, c4w, m4w⟩ := by
  decide

/-- The encoding predicate does not fire on the C4 witness input. -/
theorem c4w_encoding_unhandled :
    (EdgeCaseHandler.handleEncodingIssues ⟨c4w, c4w, m4w⟩ 0).handled = false := by
  have hc : (c4w.countP EdgeCaseHandler.isUnicodeIssue) = 0 := by decide
  have hlen : c4w.length = 34 := by decide
  simp only [EdgeCaseHandler.handleEncodingIssues, hc, hlen]
  norm_num [EdgeCaseHandler.notHandled]

/-- The obfuscation predicate does not fire on the C4 witness input. -/
theorem c4w_obfuscation_unhandled :
    (EdgeCaseHandler.handleObfuscation ⟨c4w, c4w, m4w⟩ 0).handled = false := by
  have hz : (c4w.countP ContentPreprocessor.isZeroWidth) = 0 := by decide
  have hh : EdgeCaseHandler.homographTest c4w = false := by decide
  have hs : (c4w.countP EdgeCaseHandler.isSubstitutionSymbol) = 0 := by decide
  have hl : (c4w.countP isAsciiLetter) = 26 := by decide
  simp only [EdgeCaseHandler.handleObfuscation, hz, hh, hs, hl]
  norm_num [EdgeCaseHandler.notHandled]

/-- The special-character predicate does not fire on the C4 witness
input. -/
theorem c4w_specialchars_unhandled :
    (EdgeCaseHandler.handleSpecialCharacters ⟨c4w, c4w, m4w⟩ 0).handled = false := by
  have hlen : c4w.length = 34 := by decide
  simp only [EdgeCaseHandler.handleSpecialCharacters, hlen]
  norm_num [EdgeCaseHandler.notHandled]

/-- The C4 witness input is not short-circuited. -/
theorem c4w_edge_unhandled :
    (EdgeCaseHandler.handleEdgeCase c4w 0).handled = false := by
  have h1 : (EdgeCaseHandler.handleEmptyContent ⟨c4w, c4w, m4w⟩ 0).handled = false := by
    decide
  have h2 : (EdgeCaseHandler.handleExtremeLength ⟨c4w, c4w, m4w⟩ 0).handled = false := by
    decide
  have h5 : (EdgeCaseHandler.handleNonEnglishContent ⟨c4w, c4w, m4w⟩ 0).handled
      = false := by decide
  have h7 : (EdgeCaseHandler.handleContextualEdgeCases ⟨c4w, c4w, m4w⟩ 0).handled
      = false := by decide
  have hcl : (EdgeCaseHandler.classifyPreprocessed ⟨c4w, c4w, m4w⟩ 0).handled
      = false := by
    unfold EdgeCaseHandler.classifyPreprocessed
    simp only [h1, h2, c4w_encoding_unhandled, c4w_obfuscation_unhandled, h5,
      c4w_specialchars_unhandled, h7, Bool.false_eq_true, if_false]
  unfold EdgeCaseHandler.handleEdgeCase
  rw [if_neg (by decide)]
  rw [preprocess_c4w]
  exact hcl

/-- C4 (witness): two analyze calls on a concrete non-short-circuited
text ("the cat and the dog sat on the mat", empty rule set, initial
state) agree on fingerprint, decision and score, the second differing
only in its processing time. -/
theorem C4_amended_witness :
    ∃ v1 s1 v2 s2,
      EnhancedSpamDetectionService.analyzeContent [] (fun _ => "h") c4w 0 2
          ⟨MemoryCache.init 10000 3600000, PerformanceMonitor.init⟩ = (v1, s1) ∧
      EnhancedSpamDetectionService.analyzeContent [] (fun _ => "h") c4w 5 3 s1
          = (v2, s2) ∧
      v2 = { v1 with processingTime := 3 } ∧
      v1.contentHash = v2.contentHash ∧
      v1.decision = v2.decision ∧
      v1.overallScore = v2.overallScore :=
  C4_amended_idempotence [] (fun _ => "h") c4w 0 5 2 3
    ⟨MemoryCache.init 10000 3600000, PerformanceMonitor.init⟩
    (by decide) c4w_edge_unhandled
    (by intro e he; simp [MemoryCache.init] at he)
    (by decide)
